import Mathlib

/-! Overview.
A verification development for the `stagescript` tokenizer
(`src/stagescript/tokenizer.py` and `src/stagescript/entities.py`).

The Python code is shallowly embedded as executable Lean definitions:

* the data model (`Context`, `Node`, `Character`, `Metadata`,
  `LintingViolation`, `StageScript`) is mirrored structurally;
* the regex-driven lexical pass (`Tokenizer.pattern_toplevel` built from
  `toplevel_patterns`, the `dialogue_sub_patterns`,
  `stage_direction_sub_patterns` and `declension_sub_pattern` tables) is
  implemented as deterministic scanners over `List Char` reproducing the
  Python `re` semantics (MULTILINE anchors, alternation priority,
  greedy/lazy repetition, the dialogue stop lookahead) for the ASCII
  character classes the grammar uses;
* the engine (`Tokenizer.tokenize`, `_process_node`, the function dispatch
  `_call_function` with handlers `_handle_introduce` / `_handle_include`,
  and the include-cycle guard `_check_include_stack`) is embedded as a
  state-passing interpreter.  Python's in-place mutation of the
  already-emitted current act / current scene nodes
  (`self._current_act.children.append`, `…extend`) is modelled with a
  store of mutable node builders and reference-valued items, resolved to a
  pure tree once the run finishes (exactly as `Tokenizer.parse` observes
  the tree only after `list(tokenizer.tokenize(...))` has been consumed);
* the filesystem is a finite map from paths to file contents; `pathlib`
  path resolution (`(context.path.parent / include_path).resolve()`) is
  modelled for POSIX paths with the working directory at the filesystem
  root and no symlinks;
* uncaught Python exceptions (`AttributeError` from `None.split`,
  `TypeError` from calling a handler at the wrong arity) are a distinct
  error constructor from the deliberate `ParsingError`;
* recursion through `/include` is bounded by explicit fuel, consumed only
  when descending into an included file (the Python recursion always
  terminates because the include stack prevents revisiting a file, so any
  concrete run has a sufficient fuel).
-/

namespace Stagescript

/-- Embedding of `entities.Context`: path of the file and line number of a fragment. -/
structure Context where
  path : String
  lineno : Nat
deriving Repr, DecidableEq

/-- Embedding of `Context.link`.  The Python code renders the path through
`get_condensed_path`, which only *shortens the display* of the same path
relative to the process's home or current working directory; the
environment-dependent display condensation is modelled as the identity on
the POSIX path. -/
def Context.link (c : Context) : String :=
  "File \"" ++ c.path ++ "\", line " ++ toString c.lineno

/-- Embedding of `entities.NodeKind`. -/
inductive NodeKind where
  | stage_direction
  | dialogue
  | speaker
  | mention
  | inline_stage_direction
  | play
  | act
  | scene
  | declension
  | mention_with_declension
  | text
deriving Repr, DecidableEq

/-- Embedding of `entities.Node` (the pure tree; the `__post_init__` invariant check is
modelled by `mkNode` below). -/
structure Node where
  context : Context
  kind : NodeKind
  children : List Node
  text : Option String
deriving Repr

/-- Python truthiness of the optional `text` payload (`if self.children and
self.text`): `None` and the empty string are falsy. -/
def textTruthy : Option String → Bool
  | none => false
  | some s => !(s == "")

/-- Embedding of `Node.__post_init__`: constructing a node with both (non-empty)
children and a truthy text payload raises
`ValueError("Node cannot have both children and a text content")`. -/
def mkNode (context : Context) (kind : NodeKind) (children : List Node)
    (text : Option String) : Except String Node :=
  if !children.isEmpty && textTruthy text then
    .error "Node cannot have both children and a text content"
  else
    .ok ⟨context, kind, children, text⟩

/-- The structural invariant of a single node: not both non-empty children
and non-empty text. -/
def nodeOk (n : Node) : Bool :=
  !(!n.children.isEmpty && textTruthy n.text)

/-- Embedding of `nodeOk`, recursively, over a whole subtree. -/
inductive DeepOk : Node → Prop where
  | mk (context : Context) (kind : NodeKind) (children : List Node)
      (text : Option String) :
      nodeOk ⟨context, kind, children, text⟩ = true →
      (∀ c ∈ children, DeepOk c) → DeepOk ⟨context, kind, children, text⟩

/-- Embedding of `entities.Character`. -/
structure Character where
  handle : String
  name : String
  context : Context
  introduce : Option String
deriving Repr, DecidableEq

/-- Embedding of `entities.Metadata`. -/
structure Metadata where
  key : String
  value : String
  context : Context
deriving Repr, DecidableEq

/-- Embedding of `entities.LintingViolationSeverity`. -/
inductive LintingViolationSeverity where
  | warning
  | error
deriving Repr, DecidableEq

/-- Embedding of `entities.LintingViolation`. -/
structure LintingViolation where
  description : String
  context : Context
  severity : LintingViolationSeverity
deriving Repr, DecidableEq

/-! Section: Insertion-ordered dictionaries

Python `dict` preserves insertion order and keeps the original slot on
key update; membership and lookup are by key. -/

/-- Embedding of `d[k] = v` on an insertion-ordered association list. -/
def dictSet {α : Type} : List (String × α) → String → α → List (String × α)
  | [], k, v => [(k, v)]
  | (k', v') :: rest, k, v =>
    if k' = k then (k, v) :: rest else (k', v') :: dictSet rest k v

/-- Embedding of `d.get(k)`. -/
def dictGet {α : Type} : List (String × α) → String → Option α
  | [], _ => none
  | (k', v') :: rest, k => if k' = k then some v' else dictGet rest k

/-- Embedding of `k in d`. -/
def dictContains {α : Type} (d : List (String × α)) (k : String) : Bool :=
  (dictGet d k).isSome

/-! Section: Character classes (ASCII fragment of Python's `re` classes) -/

/-- Python `\s` (ASCII): space, tab, newline, carriage return, vertical
tab, form feed. -/
def isSpaceChar (c : Char) : Bool :=
  c = ' ' || c = '\t' || c = '\n' || c = '\r' || c = Char.ofNat 11 || c = Char.ofNat 12

/-- Embedding of `[a-zA-Z0-9]` (the handle/mention class of the grammar). -/
def isAlnumChar (c : Char) : Bool :=
  ('a' ≤ c && c ≤ 'z') || ('A' ≤ c && c ≤ 'Z') || ('0' ≤ c && c ≤ '9')

/-- Python `\w` (ASCII): alphanumeric or underscore. -/
def isWordChar (c : Char) : Bool :=
  isAlnumChar c || c = '_'

/-- Embedding of `[a-zA-Z0-9_\-]` (the metadata key class). -/
def isKeyChar (c : Char) : Bool :=
  isAlnumChar c || c = '_' || c = '-'

/-- Python `str.strip()` on the ASCII whitespace set. -/
def stripChars (cs : List Char) : List Char :=
  ((cs.dropWhile isSpaceChar).reverse.dropWhile isSpaceChar).reverse

/-- Embedding of `str.strip()` packaged for `String`s. -/
def stripStr (s : String) : String :=
  ⟨stripChars s.data⟩

/-- Python `str.split(sep)` for a one-character separator: `n` separators
give `n + 1` (possibly empty) fields. -/
def splitOnSep (sep : Char) : List Char → List (List Char)
  | [] => [[]]
  | c :: cs =>
    let r := splitOnSep sep cs
    if c = sep then [] :: r
    else
      match r with
      | [] => [[c]]
      | g :: gs => (c :: g) :: gs

/-! Section: The top-level lexical pass

`Tokenizer.pattern_toplevel` is the `re.MULTILINE` alternation of the
seven `toplevel_patterns` in their dictionary order: `function`,
`play_name`, `act_name`, `scene_name`, `metadata`, `stage_direction`,
`dialogue`.  `finditer` scans positions left to right and, at each
position, tries the alternation branches in that order; an unmatched
position is skipped. -/

/-- The named capture groups a single top-level match can produce.  The
`dialogue` branch sets both its `speaker` and `dialogue` groups. -/
inductive TokMatch where
  | function (name : String) (args : Option String)
  | play_name (v : String)
  | act_name (v : String)
  | scene_name (v : String)
  | metadata (key value : String)
  | stage_direction (v : String)
  | dialogue (speaker body : String)
deriving Repr, DecidableEq

def charAt (s : List Char) (p : Nat) : Option Char := s.get? p

/-- Embedding of `^` under `re.MULTILINE`: start of input or right after a newline. -/
def isLineStart (s : List Char) (p : Nat) : Bool :=
  p == 0 || charAt s (p - 1) == some '\n'

/-- What `.*` matches from position `p`: the run of characters up to (not
including) the next newline or the end of input; `$` holds right after
it. -/
def lineRun (s : List Char) (p : Nat) : List Char :=
  (s.drop p).takeWhile (fun c => !(c == '\n'))

/-- Greedy `pred*` from position `p`. -/
def runWhile (s : List Char) (p : Nat) (pred : Char → Bool) : List Char :=
  (s.drop p).takeWhile pred

/-- Embedding of `^/(?P<function>\w+)(?:\s(?P<function_arguments>.*))?$`.  The greedy
optional group takes a whitespace character (including a newline) when one
follows the name; `function_arguments` is `None` exactly when the name
runs into the absolute end of the input. -/
def matchFunction (s : List Char) (p : Nat) : Option (TokMatch × Nat) :=
  if !isLineStart s p then none
  else if !(charAt s p == some '/') then none
  else
    let name := runWhile s (p + 1) isWordChar
    if name.isEmpty then none
    else
      let q := p + 1 + name.length
      match charAt s q with
      | none => some (.function ⟨name⟩ none, q)
      | some c =>
        if isSpaceChar c then
          let args := lineRun s (q + 1)
          some (.function ⟨name⟩ (some ⟨args⟩), q + 1 + args.length)
        else none

/-- Embedding of `^#{k}\s?(?P<v>[^#]*?)$` with no further `#` allowed right after the
`k` hashes (the lazy `[^#]*?` body cannot cross a `#`, and `$` cannot hold
there).  The greedy `\s?` is taken first and given back when the body
would have to cross a `#` before the next newline. -/
def matchHashTitle (s : List Char) (p k : Nat) : Option (String × Nat) :=
  if !isLineStart s p then none
  else if !((List.range k).all fun i => charAt s (p + i) == some '#') then none
  else if charAt s (p + k) == some '#' then none
  else
    let q := p + k
    match charAt s q with
    | none => some ("", q)
    | some c =>
      if isSpaceChar c then
        let body := lineRun s (q + 1)
        if body.contains '#' then
          if c = '\n' then some ("", q)
          else none
        else some (⟨body⟩, q + 1 + body.length)
      else
        let body := lineRun s q
        if body.contains '#' then none
        else some (⟨body⟩, q + body.length)

/-- Embedding of `^(?P<key>[a-zA-Z0-9_\-]+):\s?(?P<value>.*)$`. -/
def matchMetadata (s : List Char) (p : Nat) : Option (TokMatch × Nat) :=
  if !isLineStart s p then none
  else
    let key := runWhile s p isKeyChar
    if key.isEmpty then none
    else if !(charAt s (p + key.length) == some ':') then none
    else
      let q := p + key.length + 1
      match charAt s q with
      | some c =>
        if isSpaceChar c then
          let value := lineRun s (q + 1)
          some (.metadata ⟨key⟩ ⟨value⟩, q + 1 + value.length)
        else
          let value := lineRun s q
          some (.metadata ⟨key⟩ ⟨value⟩, q + value.length)
      | none => some (.metadata ⟨key⟩ "", q)

/-- Embedding of `^>\s(?P<stage_direction>.*)$` (the single `\s` is mandatory). -/
def matchStageDirection (s : List Char) (p : Nat) : Option (TokMatch × Nat) :=
  if !isLineStart s p then none
  else if !(charAt s p == some '>') then none
  else
    match charAt s (p + 1) with
    | some c =>
      if isSpaceChar c then
        let v := lineRun s (p + 2)
        some (.stage_direction ⟨v⟩, p + 2 + v.length)
      else none
    | none => none

/-- Embedding of `@[a-zA-Z0-9]+` at `p`; returns the position after the handle. -/
def parseHandleAt (s : List Char) (p : Nat) : Option Nat :=
  if !(charAt s p == some '@') then none
  else
    let h := runWhile s (p + 1) isAlnumChar
    if h.isEmpty then none else some (p + 1 + h.length)

/-- Embedding of `(?:,\s?@[a-zA-Z0-9]+)*` from `p`, greedily.  When the optional `\s`
is taken and `@` then fails, giving the whitespace back cannot help (the
character at the backtracked position is that whitespace, not `@`), so the
repetition simply stops. -/
def parseHandleListFrom (s : List Char) : Nat → Nat → Nat
  | 0, p => p
  | fuel + 1, p =>
    if charAt s p == some ',' then
      let q := p + 1
      let q' := match charAt s q with
                | some c => if isSpaceChar c then q + 1 else q
                | none => q
      match parseHandleAt s q' with
      | some r => parseHandleListFrom s fuel r
      | none => p
    else p

/-- The speaker prefix `@[a-zA-Z0-9]+(?:,\s?@[a-zA-Z0-9]+)*:`; returns the
position right after the colon. -/
def parseSpeakerColon (s : List Char) (p : Nat) : Option Nat :=
  match parseHandleAt s p with
  | none => none
  | some q =>
    let r := parseHandleListFrom s s.length q
    if charAt s r == some ':' then some (r + 1) else none

/-- The dialogue stop lookahead
`(?=(?:^@[a-zA-Z0-9]+(?:,\s?@[a-zA-Z0-9]+)*:)|(?:^#)|(?:^\/)|(?:^%)|(?:\Z)|(?:^>\s))`
holds at position `e`. -/
def stopAt (s : List Char) (e : Nat) : Bool :=
  e == s.length ||
  (isLineStart s e &&
    (charAt s e == some '#' || charAt s e == some '/' || charAt s e == some '%' ||
     (charAt s e == some '>' &&
       (match charAt s (e + 1) with | some c => isSpaceChar c | none => false)) ||
     (parseSpeakerColon s e).isSome))

/-- First position `≥ e` where the stop lookahead holds (`s.length` always
qualifies through the `\Z` branch). -/
def findStop (s : List Char) : Nat → Nat → Nat
  | 0, _ => s.length
  | fuel + 1, e =>
    if s.length ≤ e then s.length
    else if stopAt s e then e
    else findStop s fuel (e + 1)

/-- The `dialogue` branch: speaker prefix, `\s?` (greedy, given back only
when no body character would remain), then the lazy `(?:.|\s)+?` body of
at least one character ending at the first stop position. -/
def matchDialogue (s : List Char) (p : Nat) : Option (TokMatch × Nat) :=
  if !isLineStart s p then none
  else
    match parseSpeakerColon s p with
    | none => none
    | some b0 =>
      let speaker : String := ⟨(s.drop p).take (b0 - 1 - p)⟩
      match charAt s b0 with
      | none => none
      | some c =>
        if isSpaceChar c then
          if b0 + 1 < s.length then
            let e := findStop s s.length (b0 + 2)
            some (.dialogue speaker ⟨(s.drop (b0 + 1)).take (e - (b0 + 1))⟩, e)
          else
            some (.dialogue speaker ⟨[c]⟩, s.length)
        else
          let e := findStop s s.length (b0 + 1)
          some (.dialogue speaker ⟨(s.drop b0).take (e - b0)⟩, e)

/-- Try the seven alternation branches at one position, in the pattern
table's order. -/
def tryMatchAt (s : List Char) (p : Nat) : Option (TokMatch × Nat) :=
  match matchFunction s p with
  | some r => some r
  | none =>
  match matchHashTitle s p 1 with
  | some (v, n) => some (.play_name v, n)
  | none =>
  match matchHashTitle s p 2 with
  | some (v, n) => some (.act_name v, n)
  | none =>
  match matchHashTitle s p 3 with
  | some (v, n) => some (.scene_name v, n)
  | none =>
  match matchMetadata s p with
  | some r => some r
  | none =>
  match matchStageDirection s p with
  | some r => some r
  | none => matchDialogue s p

/-- Embedding of `pattern_toplevel.finditer`: scan left to right, emit each match with
its start position and resume after it (every branch consumes at least one
character; the `max` mirrors `finditer`'s bump-along for safety). -/
def scanFrom (s : List Char) : Nat → Nat → List (Nat × TokMatch)
  | 0, _ => []
  | fuel + 1, p =>
    if s.length ≤ p then []
    else
      match tryMatchAt s p with
      | some (m, next) => (p, m) :: scanFrom s fuel (max next (p + 1))
      | none => scanFrom s fuel (p + 1)

def scanTop (s : String) : List (Nat × TokMatch) :=
  scanFrom s.data (s.data.length + 1) 0

/-- Embedding of `string.count("\n", 0, start) + 1` — the line number computed in
`Tokenizer.tokenize` for each match. -/
def linenoAt (s : List Char) (p : Nat) : Nat :=
  ((s.take p).filter (fun c => c == '\n')).length + 1

/-! Section: Sub-parsers (`stage_direction_sub_patterns`,
`dialogue_sub_patterns`) -/

/-- What one match of `stage_direction_sub_patterns` contributes: a
mention `@(?P<declension>\([^\)]+\))?[a-zA-Z0-9]+` (here already split
into the declension content without its parentheses — exactly what
`declension_sub_pattern.match` recovers from the group value — and the
character handle) or a text run `(?<!@)[^@]+`. -/
inductive SDTok where
  | mention (declension : Option String) (character : String)
  | text (v : String)
deriving Repr, DecidableEq

def tryMention (s : List Char) (p : Nat) : Option (SDTok × Nat) :=
  if !(charAt s p == some '@') then none
  else
    if charAt s (p + 1) == some '(' then
      let inner := runWhile s (p + 2) (fun c => !(c == ')'))
      if !inner.isEmpty && charAt s (p + 2 + inner.length) == some ')' then
        let q := p + 3 + inner.length
        let ch := runWhile s q isAlnumChar
        if ch.isEmpty then none
        else some (.mention (some ⟨inner⟩) ⟨ch⟩, q + ch.length)
      else none
    else
      let ch := runWhile s (p + 1) isAlnumChar
      if ch.isEmpty then none
      else some (.mention none ⟨ch⟩, p + 1 + ch.length)

/-- Embedding of `stage_direction_sub_patterns.finditer`.  After a failed mention the
`(?<!@)` lookbehind keeps the text branch from starting right after an
`@`, so such positions are skipped. -/
def scanSDFrom (s : List Char) : Nat → Nat → List SDTok
  | 0, _ => []
  | fuel + 1, p =>
    if s.length ≤ p then []
    else
      match tryMention s p with
      | some (t, next) => t :: scanSDFrom s fuel (max next (p + 1))
      | none =>
        if !(charAt s p == some '@') && !(decide (0 < p) && charAt s (p - 1) == some '@') then
          let run := runWhile s p (fun c => !(c == '@'))
          .text ⟨run⟩ :: scanSDFrom s fuel (max (p + run.length) (p + 1))
        else scanSDFrom s fuel (p + 1)

def scanSD (v : String) : List SDTok :=
  scanSDFrom v.data (v.data.length + 1) 0

/-- What one match of `dialogue_sub_patterns` contributes:
`\{(?P<inline_stage_direction>[^}]+)\}` or `(?P<dialogue>[^{}]+)`. -/
inductive DiaTok where
  | inline (v : String)
  | text (v : String)
deriving Repr, DecidableEq

/-- Embedding of `dialogue_sub_patterns.finditer`: unmatched brace characters are
skipped. -/
def scanDiaFrom (s : List Char) : Nat → Nat → List DiaTok
  | 0, _ => []
  | fuel + 1, p =>
    if s.length ≤ p then []
    else
      if charAt s p == some '{' then
        let inner := runWhile s (p + 1) (fun c => !(c == '}'))
        if !inner.isEmpty && charAt s (p + 1 + inner.length) == some '}' then
          .inline ⟨inner⟩ :: scanDiaFrom s fuel (p + 2 + inner.length)
        else scanDiaFrom s fuel (p + 1)
      else if charAt s p == some '}' then scanDiaFrom s fuel (p + 1)
      else
        let run := runWhile s p (fun c => !(c == '{') && !(c == '}'))
        .text ⟨run⟩ :: scanDiaFrom s fuel (max (p + run.length) (p + 1))

def scanDia (v : String) : List DiaTok :=
  scanDiaFrom v.data (v.data.length + 1) 0

/-! Section: POSIX path model

`(context.path.parent / include_path).resolve()` from
`Tokenizer._handle_include`, modelled for POSIX paths with the working
directory at the filesystem root and no symlinks. -/

def splitPath (p : String) : List String :=
  ((splitOnSep '/' p.data).filter (fun seg => !seg.isEmpty)).map (fun seg => ⟨seg⟩)

def joinSegs : List String → String
  | [] => ""
  | [s] => s
  | s :: rest => s ++ "/" ++ joinSegs rest

def isAbsPath (p : String) : Bool :=
  match p.data with
  | '/' :: _ => true
  | _ => false

/-- Embedding of `pathlib.PurePath.parent`. -/
def pathParent (p : String) : String :=
  let segs := splitPath p
  if isAbsPath p then "/" ++ joinSegs segs.dropLast
  else if segs.length ≤ 1 then "." else joinSegs segs.dropLast

/-- Embedding of `pathlib`'s `/` operator. -/
def pathJoin (a b : String) : String :=
  if isAbsPath b then b else if a = "." then b else a ++ "/" ++ b

/-- Normalize `.` and `..` segments (a `..` above the root stays at the
root, as in `Path.resolve`). -/
def normStack : List String → List String → List String
  | acc, [] => acc.reverse
  | acc, seg :: rest =>
    if seg = "." then normStack acc rest
    else if seg = ".." then normStack acc.tail rest
    else normStack (seg :: acc) rest

/-- Embedding of `Path.resolve()` with the working directory modelled at `/`. -/
def pathResolve (p : String) : String :=
  let q := if isAbsPath p then p else "/" ++ p
  "/" ++ joinSegs (normStack [] (splitPath q))

/-! Section: Engine state

Python mutates the already-emitted `self._current_act` /
`self._current_scene` nodes in place (`children.append` / `extend`), so
acts and scenes live in a store of mutable builders; everything else is
placed as an immutable node.  References from the yielded top-level stream
or from an act's children into the store are resolved after the run. -/

/-- A yielded tree position: either a finished node or a reference to a
store builder (an act or scene still open for mutation). -/
inductive Item where
  | plain (n : Node)
  | ref (i : Nat)
deriving Repr

/-- A mutable act/scene node builder (identity = store index). -/
structure NodeB where
  context : Context
  kind : NodeKind
  children : List Item
  text : Option String
deriving Repr

/-- The mutable fields of a `Tokenizer` instance. -/
structure TState where
  metadata : List (String × Metadata)
  characters : List (String × Character)
  play_name : Option String
  violations : List LintingViolation
  include_stack : List String
  store : List NodeB
  current_act : Option Nat
  current_scene : Option Nat
deriving Repr

/-- Embedding of `Tokenizer.__init__` (apart from `dry_run`, which is passed around
explicitly). -/
def initState : TState := ⟨[], [], none, [], [], [], none, none⟩

/-- How a run can fail: a deliberately raised `ParsingError`, an uncaught
Python exception (`AttributeError` / `TypeError` / `FileNotFoundError`),
or exhaustion of the include-recursion fuel (a model artifact — the
Python recursion is bounded by the include stack). -/
inductive Err where
  | parsing (msg : String)
  | crash (msg : String)
  | outOfFuel
deriving Repr, DecidableEq

/-- The filesystem: existing regular files and their contents. -/
abbrev Fs := List (String × String)

/-- Embedding of `Tokenizer.track_violation` (logging aside). -/
def trackViolation (st : TState) (description : String) (ctx : Context)
    (severity : LintingViolationSeverity) : TState :=
  {st with violations := st.violations ++ [⟨description, ctx, severity⟩]}

/-! Violation descriptions and exception messages, verbatim from
`tokenizer.py`. -/

def unknownFnDesc (name : String) : String :=
  "Called to undefined function '" ++ name ++ "'"

def unknownFnMsg (name : String) (ctx : Context) : String :=
  "Called to undefined function '" ++ name ++ "' at " ++ ctx.link

def missingIncDesc (includePath : String) : String :=
  "Included path " ++ includePath ++ " is not an existing file"

def missingIncMsg (ctx : Context) (includePath : String) : String :=
  ctx.link ++ " - Included path " ++ includePath ++ " is not an existing file"

def cyclicDesc (path : String) : String :=
  "Cannot process file " ++ path ++ " - circular include"

def cyclicMsg (ctx : Context) (path : String) : String :=
  ctx.link ++ " - Cannot process file " ++ path ++ " - circular include"

def dupCharDesc (handle : String) (prev : Character) : String :=
  "Character handle " ++ handle ++ " was previously introduced in " ++ prev.context.link

def dupMetaDesc (ctx : Context) (key : String) (orig : Metadata) : String :=
  ctx.link ++ " - Metadata key '" ++ key ++ "' was previously set in " ++ orig.context.link

def dupNameDesc (old : String) : String :=
  "Play already had a name '" ++ old ++ "'"

def mentionViol (ctx : Context) (character : String) : LintingViolation :=
  ⟨ctx.link ++ " - '" ++ character ++ "' is mentioned but was not properly introduced",
   ctx, .warning⟩

def speakerViol (ctx : Context) (handle : String) : LintingViolation :=
  ⟨ctx.link ++ " - '" ++ handle ++ "' speaks but was not properly introduced.",
   ctx, .warning⟩

def attrErrMsg : String :=
  "AttributeError: 'NoneType' object has no attribute 'split'"

def typeErrMsg (name : String) : String :=
  "TypeError: handler '" ++ name ++ "' called with wrong number of arguments"

/-! Section: Sub-processors -/

/-- Embedding of `Tokenizer._process_stage_direction` over the scanned matches: text
runs become `TEXT` nodes; a mention without declension becomes a `MENTION`
node (empty children, text = handle), one with declension a
`MENTION_WITH_DECLENSION` node with `MENTION` and `DECLENSION` children;
any mentioned character missing from the registry records a Warning. -/
def processSDToks (ctx : Context) (chars : List (String × Character)) :
    List SDTok → List Node × List LintingViolation
  | [] => ([], [])
  | .text v :: rest =>
    (⟨ctx, .text, [], some v⟩ :: (processSDToks ctx chars rest).1,
     (processSDToks ctx chars rest).2)
  | .mention none ch :: rest =>
    (⟨ctx, .mention, [], some ch⟩ :: (processSDToks ctx chars rest).1,
     (if dictContains chars ch then [] else [mentionViol ctx ch]) ++
       (processSDToks ctx chars rest).2)
  | .mention (some d) ch :: rest =>
    (⟨ctx, .mention_with_declension,
        [⟨ctx, .mention, [], some ch⟩, ⟨ctx, .declension, [], some d⟩], none⟩ ::
       (processSDToks ctx chars rest).1,
     (if dictContains chars ch then [] else [mentionViol ctx ch]) ++
       (processSDToks ctx chars rest).2)

def processStageDirection (ctx : Context) (chars : List (String × Character))
    (v : String) : List Node × List LintingViolation :=
  processSDToks ctx chars (scanSD v)

/-- Embedding of `Tokenizer._process_dialogue`: `{…}` spans become
`INLINE_STAGE_DIRECTION` nodes whose children come from the
stage-direction sub-parser; the remaining runs become `DIALOGUE` text
nodes (no mention parsing on them). -/
def processDiaToks (ctx : Context) (chars : List (String × Character)) :
    List DiaTok → List Node × List LintingViolation
  | [] => ([], [])
  | .inline v :: rest =>
    (⟨ctx, .inline_stage_direction, (processStageDirection ctx chars v).1, none⟩ ::
       (processDiaToks ctx chars rest).1,
     (processStageDirection ctx chars v).2 ++ (processDiaToks ctx chars rest).2)
  | .text v :: rest =>
    (⟨ctx, .dialogue, [], some v⟩ :: (processDiaToks ctx chars rest).1,
     (processDiaToks ctx chars rest).2)

def processDialogue (ctx : Context) (chars : List (String × Character))
    (v : String) : List Node × List LintingViolation :=
  processDiaToks ctx chars (scanDia v)

/-- Embedding of `Tokenizer._process_speakers` on the comma-split fields: each is
stripped, leading `@`s removed, checked against the registry, and becomes
a `SPEAKER` node. -/
def processSpeakerList (ctx : Context) (chars : List (String × Character)) :
    List (List Char) → List Node × List LintingViolation
  | [] => ([], [])
  | sp :: rest =>
    (⟨ctx, .speaker, [], some ⟨(stripChars sp).dropWhile (fun c => c == '@')⟩⟩ ::
       (processSpeakerList ctx chars rest).1,
     (if dictContains chars ⟨(stripChars sp).dropWhile (fun c => c == '@')⟩ then []
      else [speakerViol ctx ⟨(stripChars sp).dropWhile (fun c => c == '@')⟩]) ++
       (processSpeakerList ctx chars rest).2)

def processSpeakers (ctx : Context) (chars : List (String × Character))
    (value : String) : List Node × List LintingViolation :=
  processSpeakerList ctx chars (splitOnSep ',' value.data)

/-! Section: Engine steps -/

/-- Embedding of `Tokenizer._handle_introduce`. -/
def introduceStep (st : TState) (handle name : String) (introduce : Option String)
    (ctx : Context) : TState :=
  let st1 := match dictGet st.characters handle with
    | some prev => trackViolation st (dupCharDesc handle prev) ctx .warning
    | none => st
  {st1 with characters := dictSet st1.characters handle ⟨handle, name, ctx, introduce⟩}

/-- Embedding of `Tokenizer._update_metadata`. -/
def updateMetadata (st : TState) (key value : String) (ctx : Context) : TState :=
  let st1 := match dictGet st.metadata key with
    | some orig => trackViolation st (dupMetaDesc ctx key orig) ctx .warning
    | none => st
  {st1 with metadata := dictSet st1.metadata key ⟨key, value, ctx⟩}

/-- The `play_name` case of `Tokenizer._process_node`: a Warning when a
name already exists, then an unconditional overwrite. -/
def updatePlayName (st : TState) (v : String) (ctx : Context) : TState :=
  let st1 := match st.play_name with
    | some old => trackViolation st (dupNameDesc old) ctx .warning
    | none => st
  {st1 with play_name := some v}

/-- Append items to the children of the builder at store index `j`. -/
def storeAppend : List NodeB → Nat → List Item → List NodeB
  | [], _, _ => []
  | b :: bs, 0, its => {b with children := b.children ++ its} :: bs
  | b :: bs, j + 1, its => b :: storeAppend bs j its

/-- The placement rule at the end of `Tokenizer.tokenize` for nodes that
are neither acts nor scenes: into the current scene if set, else into the
current act if set, else yielded at top level. -/
def placeNodes (st : TState) (ns : List Node) : TState × List Item :=
  match st.current_scene with
  | some i => ({st with store := storeAppend st.store i (ns.map .plain)}, [])
  | none =>
    match st.current_act with
    | some j => ({st with store := storeAppend st.store j (ns.map .plain)}, [])
    | none => (st, ns.map .plain)

/-- The `ACT` branch of `Tokenizer.tokenize`: a fresh act builder with the
title text as first child, `current_act` set to it (`current_scene` is
left untouched), and the act yielded at top level. -/
def placeAct (st : TState) (ctx : Context) (v : String) : TState × List Item :=
  let idx := st.store.length
  ({st with
      store := st.store ++ [⟨ctx, .act, [.plain ⟨ctx, .text, [], some v⟩], none⟩],
      current_act := some idx}, [.ref idx])

/-- The `SCENE` branch of `Tokenizer.tokenize`: a fresh scene builder,
`current_scene` set to it; appended to the current act when one exists,
yielded at top level otherwise. -/
def placeScene (st : TState) (ctx : Context) (v : String) : TState × List Item :=
  let idx := st.store.length
  let st1 := {st with
    store := st.store ++ [⟨ctx, .scene, [.plain ⟨ctx, .text, [], some v⟩], none⟩],
    current_scene := some idx}
  match st.current_act with
  | some j => ({st1 with store := storeAppend st1.store j [.ref idx]}, [])
  | none => (st1, [.ref idx])

/-- Embedding of `map(str.strip, arguments_string.split(";"))`. -/
def parseArgs (a : String) : List String :=
  (splitOnSep ';' a.data).map (fun g => ⟨stripChars g⟩)

/-- Prepend already-yielded items to the recursive result. -/
def withItems (items : List Item) :
    TState × Except Err (List Item) → TState × Except Err (List Item)
  | (st, .ok more) => (st, .ok (items ++ more))
  | (st, .error e) => (st, .error e)

/-- The match stream of one file, with the per-match contexts computed as
in `Tokenizer.tokenize`. -/
def toToks (path : String) (content : String) : List (Context × TokMatch) :=
  (scanTop content).map (fun pm => (⟨path, linenoAt content.data pm.1⟩, pm.2))

/-- One level of the loop of `Tokenizer.tokenize` over one file's match
stream.  `dryRun` is the tokenizer's `dry_run` flag; `inner` is the run
used to tokenize an included file (one include level deeper).  Returns
the final state together with either the items the generator yielded or
the exception raised.
Faithful corner cases: a registered function with a `None` arguments
string crashes on `None.split` before any handler logic; a registered
handler applied at the wrong arity raises `TypeError` (for
`_handle_include`, argument validation happens when the generator object
is created, before its body runs); the cyclic-include violation is
recorded in both modes before strict mode raises; on an exception the
include stack is not popped (`_check_include_stack` has no
`try/finally`). -/
def runLevel (dryRun : Bool) (fs : Fs)
    (inner : List (Context × TokMatch) → TState → TState × Except Err (List Item)) :
    List (Context × TokMatch) → TState → TState × Except Err (List Item)
  | [], st => (st, .ok [])
  | (ctx, m) :: rest, st =>
    match m with
    | .metadata key value =>
      runLevel dryRun fs inner rest (updateMetadata st key value ctx)
    | .play_name v =>
      runLevel dryRun fs inner rest (updatePlayName st v ctx)
    | .act_name v =>
      let r := placeAct st ctx v
      withItems r.2 (runLevel dryRun fs inner rest r.1)
    | .scene_name v =>
      let r := placeScene st ctx v
      withItems r.2 (runLevel dryRun fs inner rest r.1)
    | .stage_direction v =>
      let pr := processStageDirection ctx st.characters v
      let st1 := {st with violations := st.violations ++ pr.2}
      let r := placeNodes st1 [⟨ctx, .stage_direction, pr.1, none⟩]
      withItems r.2 (runLevel dryRun fs inner rest r.1)
    | .dialogue speaker body =>
      let sp := processSpeakers ctx st.characters (stripStr speaker)
      let st1 := {st with violations := st.violations ++ sp.2}
      let r1 := placeNodes st1 [⟨ctx, .speaker, sp.1, none⟩]
      let dia := processDialogue ctx r1.1.characters body
      let st3 := {r1.1 with violations := r1.1.violations ++ dia.2}
      let r2 := placeNodes st3 [⟨ctx, .dialogue, dia.1, none⟩]
      withItems (r1.2 ++ r2.2) (runLevel dryRun fs inner rest r2.1)
    | .function name args =>
      if name = "introduce" then
        match args with
        | none => (st, .error (.crash attrErrMsg))
        | some a =>
          match parseArgs a with
          | [h, n] => runLevel dryRun fs inner rest (introduceStep st h n none ctx)
          | [h, n, i] =>
            runLevel dryRun fs inner rest (introduceStep st h n (some i) ctx)
          | _ => (st, .error (.crash (typeErrMsg name)))
      else if name = "include" then
        match args with
        | none => (st, .error (.crash attrErrMsg))
        | some a =>
          match parseArgs a with
          | [inc] =>
            let resolved := pathResolve (pathJoin (pathParent ctx.path) inc)
            match dictGet fs resolved with
            | none =>
              let st1 := trackViolation st (missingIncDesc inc) ctx .error
              if dryRun then runLevel dryRun fs inner rest st1
              else (st1, .error (.parsing (missingIncMsg ctx inc)))
            | some content =>
              if st.include_stack.contains resolved then
                let st1 := trackViolation st (cyclicDesc resolved) ctx .error
                if dryRun then runLevel dryRun fs inner rest st1
                else (st1, .error (.parsing (cyclicMsg ctx resolved)))
              else
                let stPushed :=
                  {st with include_stack := st.include_stack ++ [resolved]}
                match inner (toToks resolved content) stPushed with
                | (st2, .error e) => (st2, .error e)
                | (st2, .ok innerItems) =>
                  let stPopped :=
                    {st2 with include_stack := st2.include_stack.dropLast}
                  withItems innerItems (runLevel dryRun fs inner rest stPopped)
          | _ => (st, .error (.crash (typeErrMsg name)))
      else
        let st1 := trackViolation st (unknownFnDesc name) ctx .error
        if dryRun then runLevel dryRun fs inner rest st1
        else (st1, .error (.parsing (unknownFnMsg name ctx)))

/-- The full run, with the include-recursion depth bounded by `fuel`
(consumed only when descending into an included file; the Python
recursion is bounded by the include stack, so any concrete run has a
sufficient fuel). -/
def runToks (dryRun : Bool) (fs : Fs) : Nat → List (Context × TokMatch) → TState →
    TState × Except Err (List Item)
  | 0 => fun _ st => (st, .error .outOfFuel)
  | fuel + 1 => runLevel dryRun fs (runToks dryRun fs fuel)

/-- Resolve yielded items against the final store (what the tree looks
like once `list(tokenizer.tokenize(...))` has been consumed and all
in-place mutation has happened).  The fuel bounds the reference depth;
references only ever point from an act to one of its later-allocated
scenes, so `store.length + 1` levels always suffice. -/
def resolveItems (store : List NodeB) : Nat → List Item → List Node
  | 0, _ => []
  | fuel + 1, items =>
    items.map fun it =>
      match it with
      | .plain n => n
      | .ref i =>
        match store.get? i with
        | none => ⟨⟨"", 0⟩, .text, [], none⟩
        | some b => ⟨b.context, b.kind, resolveItems store fuel b.children, b.text⟩

/-- The parse result (`entities.StageScript`; the `template` field is a
pure function of `metadata` and carries no extra information). -/
structure StageScriptR where
  name : Option String
  metadata : List (String × Metadata)
  characters : List (String × Character)
  nodes : List Node
  violations : List LintingViolation
deriving Repr

/-- Embedding of `Tokenizer.parse(path, dry_run=...)`: a fresh tokenizer, one
`tokenize` run over the file's text, then the assembled document.  A
missing root file makes `read_text` raise `FileNotFoundError`. -/
def parseModel (fuel : Nat) (fs : Fs) (path : String) (dryRun : Bool) :
    TState × Except Err StageScriptR :=
  match dictGet fs path with
  | none => (initState, .error (.crash ("FileNotFoundError: " ++ path)))
  | some content =>
    match runToks dryRun fs fuel (toToks path content) initState with
    | (st, .ok items) =>
      (st, .ok ⟨st.play_name, st.metadata, st.characters,
                resolveItems st.store (st.store.length + 1) items, st.violations⟩)
    | (st, .error e) => (st, .error e)

/-! Section: Predicates used by the claims -/

/-- The characters mentioned by a scanned stage direction, in order (from
plain mentions as well as declined ones). -/
def sdMentions : List SDTok → List String
  | [] => []
  | .mention _ ch :: rest => ch :: sdMentions rest
  | .text _ :: rest => sdMentions rest

/-- Whether a top-level match is a function call. -/
def isFunction : TokMatch → Bool
  | .function _ _ => true
  | _ => false

/-- The value of the last play-title match of a stream, if any. -/
def lastPlay : List (Context × TokMatch) → Option String
  | [] => none
  | (_, .play_name v) :: rest => some ((lastPlay rest).getD v)
  | _ :: rest => lastPlay rest

/-- The arity with which `_call_function` would apply a registered handler
is wrong (a `TypeError`): `_handle_introduce` takes two or three
positional arguments, `_handle_include` exactly one. -/
def badArity (name : String) (a : String) : Bool :=
  if name = "introduce" then
    !((parseArgs a).length == 2 || (parseArgs a).length == 3)
  else if name = "include" then !((parseArgs a).length == 1)
  else false

/-- A yielded item is structurally sound: a plain node is deeply
invariant-respecting; a store reference is covered by `StoreOk`. -/
def ItemOkP : Item → Prop
  | .plain n => DeepOk n
  | .ref _ => True

/-- Every act/scene builder in the store has no text payload and only
sound children. -/
def StoreOk (store : List NodeB) : Prop :=
  ∀ b ∈ store, b.text = none ∧ ∀ it ∈ b.children, ItemOkP it

/-- Monotone growth of the character registry between two states (the
engine registers and overwrites characters but never removes them). -/
def charsSub (st st' : TState) : Prop :=
  ∀ h, dictContains st.characters h = true → dictContains st'.characters h = true

/-! Section: Concrete fixtures -/

/-- A single-file filesystem holding `content` at `/main.play`. -/
def exFs (content : String) : Fs := [("/main.play", content)]

def exCtx (n : Nat) : Context := ⟨"/main.play", n⟩

/-- The document the spec's §8 example expects (for claim C7). -/
def c7Expected : StageScriptR :=
  ⟨some "My Play", [],
   [("tom", ⟨"tom", "Tom", exCtx 2, some "none"⟩)],
   [⟨exCtx 3, .speaker, [⟨exCtx 3, .speaker, [], some "tom"⟩], none⟩,
    ⟨exCtx 3, .dialogue, [⟨exCtx 3, .dialogue, [], some "Hi\n"⟩], none⟩],
   []⟩

/-- C7: the input `"# My Play\n/introduce tom; Tom; none\n@tom: Hi\n"`
parses — in strict mode as well as in lint/dry-run mode — to a document
named `"My Play"`, a character registry containing exactly handle `tom`
with display name `Tom` and introduction text `none`, top-level nodes
consisting of exactly a Speaker node (one child speaker `tom`)
immediately followed by a Dialogue node (one text child `"Hi\n"`), and an
empty violations list. -/
theorem C7_example_parse :
    (parseModel 1 (exFs "# My Play\n/introduce tom; Tom; none\n@tom: Hi\n")
        "/main.play" false).2 = .ok c7Expected ∧
    (parseModel 1 (exFs "# My Play\n/introduce tom; Tom; none\n@tom: Hi\n")
        "/main.play" true).2 = .ok c7Expected :=
  ⟨rfl, rfl⟩

/-- C3 (failing input): on `"## A\n### S\n## B\n> x\n"` the act match
for `B` sets `current_act` but does **not** clear `current_scene`
(`Tokenizer.tokenize` lines 301–304 have no `self._current_scene = None`),
so the stage direction following `## B` is appended to scene `S`, which
lives inside the **earlier** act `A` — while the claim (and spec §4.5)
require content after an act title never to land inside an earlier act's
scene.  The evaluation shows the stage direction from line 4 as a child of
the scene from line 2 inside the act from line 1, with act `B` left with
its title only. -/
theorem C3_act_keeps_stale_scene :
    (parseModel 1 (exFs "## A\n### S\n## B\n> x\n") "/main.play" false).2 =
      .ok ⟨none, [], [],
        [⟨exCtx 1, .act,
           [⟨exCtx 1, .text, [], some "A"⟩,
            ⟨exCtx 2, .scene,
              [⟨exCtx 2, .text, [], some "S"⟩,
               ⟨exCtx 4, .stage_direction, [⟨exCtx 4, .text, [], some "x"⟩], none⟩],
              none⟩],
           none⟩,
         ⟨exCtx 3, .act, [⟨exCtx 3, .text, [], some "B"⟩], none⟩],
        []⟩ := rfl

/-- C4 (counterexample): on `"# A\n# B\n"` the engine overwrites the
play name (`self.play_name = value` runs unconditionally after the
violation is tracked), so the parsed name is `"B"` — the text of the
*last* play-title line — not `"A"` as the claim's "first wins, later
values ignored" requires.  The second line still records exactly one
Warning. -/
theorem C4_counterexample :
    (parseModel 1 (exFs "# A\n# B\n") "/main.play" false).2 =
      .ok ⟨some "B", [], [], [],
        [⟨dupNameDesc "A", exCtx 2, .warning⟩]⟩ ∧
    (some "B" : Option String) ≠ some "A" :=
  ⟨rfl, by decide⟩

/-- C5 (counterexample): on `"@tom: hi @bob\n"` the dialogue body
`"hi @bob\n"` contains the run `@bob` outside any `{...}` span, yet
`_process_dialogue` yields it untouched inside a plain `DIALOGUE` text
node: the Dialogue node's only child is the text run — no `MENTION` node
is produced, contradicting the claim that the mention sub-parser applies
to dialogue bodies.  (The sole violation is about `tom` speaking while
unintroduced, not about the mention.) -/
theorem C5_counterexample :
    (parseModel 1 (exFs "@tom: hi @bob\n") "/main.play" false).2 =
      .ok ⟨none, [], [],
        [⟨exCtx 1, .speaker, [⟨exCtx 1, .speaker, [], some "tom"⟩], none⟩,
         ⟨exCtx 1, .dialogue, [⟨exCtx 1, .dialogue, [], some "hi @bob\n"⟩], none⟩],
        [speakerViol (exCtx 1) "tom"]⟩ ∧
    ∀ n ∈ ([⟨exCtx 1, .dialogue, [], some "hi @bob\n"⟩] : List Node),
      n.kind ≠ .mention :=
  ⟨rfl, by intro n hn; simp only [List.mem_singleton] at hn; subst hn; decide⟩

/-- C6 (counterexample): the file `/a.play` = `"> hi\n/include
a.play"` includes itself directly.  In lint/dry-run mode the parse records
exactly one Error violation, but the cyclic include *does* contribute a
node: the top-level file is never pushed on the include stack
(`_include_stack` is only touched by `_handle_include`), so the first
self-include recurses once and re-emits the stage direction before the
nested include is cut off — contradicting the claim's "the cyclic include
contributes no nodes (no recursion into the file)". -/
theorem C6_counterexample :
    (parseModel 2 [("/a.play", "> hi\n/include a.play")] "/a.play" true).2 =
      .ok ⟨none, [], [],
        [⟨⟨"/a.play", 1⟩, .stage_direction,
           [⟨⟨"/a.play", 1⟩, .text, [], some "hi"⟩], none⟩,
         ⟨⟨"/a.play", 1⟩, .stage_direction,
           [⟨⟨"/a.play", 1⟩, .text, [], some "hi"⟩], none⟩],
        [⟨cyclicDesc "/a.play", ⟨"/a.play", 2⟩, .error⟩]⟩ := rfl

/-! Section: General lemmas -/

theorem withItems_fst (items : List Item) (p : TState × Except Err (List Item)) :
    (withItems items p).1 = p.1 := by
  rcases p with ⟨st, r⟩
  cases r <;> rfl

theorem withItems_nil (p : TState × Except Err (List Item)) :
    withItems [] p = p := by
  rcases p with ⟨st, r⟩
  cases r <;> simp [withItems]

theorem withItems_ok_iff (items : List Item) (p : TState × Except Err (List Item))
    (st' : TState) (out : List Item) :
    withItems items p = (st', .ok out) ↔
      ∃ out', p = (st', .ok out') ∧ out = items ++ out' := by
  rcases p with ⟨st, r⟩
  cases r with
  | ok o => simp [withItems, and_assoc, eq_comm]
  | error e => simp [withItems]

theorem withItems_mode (items : List Item) (pS pL : TState × Except Err (List Item))
    (hp : ∀ st' out, pS = (st', .ok out) → pL = (st', .ok out)) :
    ∀ st' out, withItems items pS = (st', .ok out) → withItems items pL = (st', .ok out) := by
  intro st' out h
  rw [withItems_ok_iff] at h ⊢
  obtain ⟨out', h1, h2⟩ := h
  exact ⟨out', hp _ _ h1, h2⟩

theorem dictGet_set_self {α : Type} (m : List (String × α)) (k : String) (v : α) :
    dictGet (dictSet m k v) k = some v := by
  induction m with
  | nil => simp [dictSet, dictGet]
  | cons kv rest ih =>
    rcases kv with ⟨k', v'⟩
    by_cases h : k' = k <;> simp [dictSet, dictGet, h, ih]

theorem dictGet_set_ne {α : Type} (m : List (String × α)) (k k' : String) (v : α)
    (h : k ≠ k') : dictGet (dictSet m k v) k' = dictGet m k' := by
  induction m with
  | nil => simp [dictSet, dictGet, h]
  | cons kv rest ih =>
    rcases kv with ⟨k'', v''⟩
    by_cases h2 : k'' = k
    · subst h2
      simp [dictSet, dictGet, h]
    · simp [dictSet, dictGet, h2, ih]

theorem dictContains_set {α : Type} (m : List (String × α)) (k k' : String) (v : α)
    (h : dictContains m k' = true) : dictContains (dictSet m k v) k' = true := by
  by_cases hk : k = k'
  · subst hk
    simp [dictContains, dictGet_set_self]
  · simpa [dictContains, dictGet_set_ne m k k' v hk] using h

/-! Section: C1: strict mode and lint mode agree whenever strict mode succeeds

The only places `Tokenizer` consults `dry_run` for anything but logging
are the three Error-severity conditions (unknown function, missing
include, cyclic include), each of which makes the strict run raise.  So a
strict run that returns normally has taken no `dry_run`-dependent branch,
and the lint run of the same input computes the identical state and
tree. -/

theorem runLevel_mode (fs : Fs)
    (innerS innerL : List (Context × TokMatch) → TState → TState × Except Err (List Item))
    (hinner : ∀ toks st st' out, innerS toks st = (st', .ok out) →
      innerL toks st = (st', .ok out)) :
    ∀ toks st st' out, runLevel false fs innerS toks st = (st', .ok out) →
      runLevel true fs innerL toks st = (st', .ok out) := by
  intro toks
  induction toks with
  | nil => intro st st' out h; exact h
  | cons t rest ih =>
    rcases t with ⟨ctx, m⟩
    intro st st' out h
    cases m with
    | metadata k v => exact ih _ _ _ h
    | play_name v => exact ih _ _ _ h
    | act_name v =>
      simp only [runLevel] at h ⊢
      exact withItems_mode _ _ _ (fun _ _ => ih _ _ _) _ _ h
    | scene_name v =>
      simp only [runLevel] at h ⊢
      exact withItems_mode _ _ _ (fun _ _ => ih _ _ _) _ _ h
    | stage_direction v =>
      simp only [runLevel] at h ⊢
      exact withItems_mode _ _ _ (fun _ _ => ih _ _ _) _ _ h
    | dialogue sp body =>
      simp only [runLevel] at h ⊢
      exact withItems_mode _ _ _ (fun _ _ => ih _ _ _) _ _ h
    | function name args =>
      simp only [runLevel] at h ⊢
      by_cases hn : name = "introduce"
      · rw [if_pos hn] at h ⊢
        cases args with
        | none => exact absurd h (by simp)
        | some a =>
          dsimp only at h ⊢
          rcases hp : parseArgs a with _ | ⟨a1, _ | ⟨a2, _ | ⟨a3, _ | ⟨a4, t⟩⟩⟩⟩ <;>
            rw [hp] at h
          · exact absurd h (by simp)
          · exact absurd h (by simp)
          · exact ih _ _ _ h
          · exact ih _ _ _ h
          · exact absurd h (by simp)
      · by_cases hi : name = "include"
        · rw [if_neg hn, if_pos hi] at h ⊢
          cases args with
          | none => exact absurd h (by simp)
          | some a =>
            dsimp only at h ⊢
            rcases hp : parseArgs a with _ | ⟨a1, _ | ⟨a2, t⟩⟩ <;> rw [hp] at h
            · exact absurd h (by simp)
            · dsimp only at h ⊢
              rcases hres : dictGet fs (pathResolve (pathJoin (pathParent ctx.path) a1))
                with _ | content <;> rw [hres] at h
              · exact absurd h (by simp)
              · dsimp only at h ⊢
                by_cases hcyc :
                  st.include_stack.contains
                    (pathResolve (pathJoin (pathParent ctx.path) a1)) = true
                · rw [if_pos hcyc] at h
                  exact absurd h (by simp)
                · rw [if_neg hcyc] at h
                  rw [if_neg hcyc]
                  rcases hin : innerS
                      (toToks (pathResolve (pathJoin (pathParent ctx.path) a1)) content)
                      {st with include_stack :=
                        st.include_stack ++
                          [pathResolve (pathJoin (pathParent ctx.path) a1)]} with
                    ⟨st2, r2⟩
                  rw [hin] at h
                  cases r2 with
                  | error e => exact absurd h (by simp)
                  | ok innerItems =>
                    rw [hinner _ _ _ _ hin]
                    exact withItems_mode _ _ _ (fun _ _ => ih _ _ _) _ _ h
            · exact absurd h (by simp)
        · rw [if_neg hn, if_neg hi] at h ⊢
          exact absurd h (by simp)

theorem runToks_mode (fs : Fs) :
    ∀ fuel toks st st' out, runToks false fs fuel toks st = (st', .ok out) →
      runToks true fs fuel toks st = (st', .ok out) := by
  intro fuel
  induction fuel with
  | zero => intro toks st st' out h; exact absurd h (by simp [runToks])
  | succ fuel ih => exact runLevel_mode fs _ _ ih

/-- C1: if parsing in strict mode (`dry_run=False`) returns normally
— no Error-severity condition occurred, so no `ParsingError` was raised —
then parsing the same input in lint/dry-run mode produces the identical
result: the same final tokenizer state (characters, metadata, play name,
violations, include bookkeeping) and the same node tree. -/
theorem C1_strict_lint_agree (fuel : Nat) (fs : Fs) (path : String)
    (st : TState) (doc : StageScriptR)
    (h : parseModel fuel fs path false = (st, .ok doc)) :
    parseModel fuel fs path true = (st, .ok doc) := by
  unfold parseModel at h ⊢
  rcases hc : dictGet fs path with _ | content <;> rw [hc] at h
  · exact absurd h (by simp)
  · dsimp only at h ⊢
    rcases hr : runToks false fs fuel (toToks path content) initState with ⟨st1, r1⟩
    rw [hr] at h
    cases r1 with
    | error e => exact absurd h (by simp)
    | ok items =>
      rw [runToks_mode fs fuel _ _ _ _ hr]
      exact h

/-- Witness for C1 at a concrete input on which strict mode succeeds. -/
theorem C1_witness :
    parseModel 1 (exFs "# T\n") "/main.play" true =
      (⟨[], [], some "T", [], [], [], none, none⟩,
       .ok ⟨some "T", [], [], [], []⟩) :=
  C1_strict_lint_agree 1 (exFs "# T\n") "/main.play" _ _ rfl

/-! Section: C2: the node structural invariant -/

theorem nodeOk_of_text_none (ctx : Context) (k : NodeKind) (cs : List Node) :
    nodeOk ⟨ctx, k, cs, none⟩ = true := by
  simp [nodeOk, textTruthy]

theorem nodeOk_of_children_nil (ctx : Context) (k : NodeKind) (t : Option String) :
    nodeOk ⟨ctx, k, [], t⟩ = true := by
  simp [nodeOk]

theorem deepOk_leaf (ctx : Context) (k : NodeKind) (t : Option String) :
    DeepOk ⟨ctx, k, [], t⟩ :=
  .mk _ _ _ _ (nodeOk_of_children_nil ctx k t) (by intro c hc; simp at hc)

theorem deepOk_parent (ctx : Context) (k : NodeKind) (cs : List Node)
    (hcs : ∀ c ∈ cs, DeepOk c) : DeepOk ⟨ctx, k, cs, none⟩ :=
  .mk _ _ _ _ (nodeOk_of_text_none ctx k cs) hcs

theorem processSDToks_nodes_ok (ctx : Context) (chars : List (String × Character)) :
    ∀ toks, ∀ n ∈ (processSDToks ctx chars toks).1, DeepOk n := by
  intro toks
  induction toks with
  | nil => intro n hn; simp [processSDToks] at hn
  | cons t rest ih =>
    intro n hn
    rcases t with ⟨_ | d, ch⟩ | v <;>
      simp only [processSDToks, List.mem_cons] at hn <;>
      rcases hn with rfl | hn
    · exact deepOk_leaf _ _ _
    · exact ih n hn
    · refine deepOk_parent _ _ _ ?_
      intro c hc
      simp only [List.mem_cons, List.not_mem_nil, or_false] at hc
      rcases hc with rfl | rfl <;> exact deepOk_leaf _ _ _
    · exact ih n hn
    · exact deepOk_leaf _ _ _
    · exact ih n hn

theorem processDiaToks_nodes_ok (ctx : Context) (chars : List (String × Character)) :
    ∀ toks, ∀ n ∈ (processDiaToks ctx chars toks).1, DeepOk n := by
  intro toks
  induction toks with
  | nil => intro n hn; simp [processDiaToks] at hn
  | cons t rest ih =>
    intro n hn
    cases t with
    | inline v =>
      simp only [processDiaToks, List.mem_cons] at hn
      rcases hn with rfl | hn
      · exact deepOk_parent _ _ _ (processSDToks_nodes_ok ctx chars (scanSD v))
      · exact ih n hn
    | text v =>
      simp only [processDiaToks, List.mem_cons] at hn
      rcases hn with rfl | hn
      · exact deepOk_leaf _ _ _
      · exact ih n hn

theorem processSpeakerList_nodes_ok (ctx : Context) (chars : List (String × Character)) :
    ∀ sps, ∀ n ∈ (processSpeakerList ctx chars sps).1, DeepOk n := by
  intro sps
  induction sps with
  | nil => intro n hn; simp [processSpeakerList] at hn
  | cons sp rest ih =>
    intro n hn
    simp only [processSpeakerList, List.mem_cons] at hn
    rcases hn with rfl | hn
    · exact deepOk_leaf _ _ _
    · exact ih n hn

theorem storeAppend_ok (its : List Item) (hits : ∀ it ∈ its, ItemOkP it) :
    ∀ store j, StoreOk store → StoreOk (storeAppend store j its) := by
  intro store
  induction store with
  | nil => intro j h; simpa [storeAppend] using h
  | cons b bs ih =>
    intro j h
    cases j with
    | zero =>
      intro b' hb'
      simp only [storeAppend, List.mem_cons] at hb'
      rcases hb' with rfl | hb'
      · refine ⟨(h b (by simp)).1, ?_⟩
        intro it hit
        simp only [List.mem_append] at hit
        rcases hit with hit | hit
        · exact (h b (by simp)).2 it hit
        · exact hits it hit
      · exact h b' (by simp [hb'])
    | succ j =>
      intro b' hb'
      simp only [storeAppend, List.mem_cons] at hb'
      rcases hb' with rfl | hb'
      · exact h b' (by simp)
      · exact ih j (fun x hx => h x (by simp [hx])) b' hb'

theorem StoreOk_snoc (store : List NodeB) (b : NodeB) (h : StoreOk store)
    (hb : b.text = none ∧ ∀ it ∈ b.children, ItemOkP it) :
    StoreOk (store ++ [b]) := by
  intro b' hb'
  simp only [List.mem_append, List.mem_singleton] at hb'
  rcases hb' with hb' | rfl
  · exact h b' hb'
  · exact hb

theorem placeNodes_inv (st : TState) (ns : List Node) (hst : StoreOk st.store)
    (hns : ∀ n ∈ ns, DeepOk n) :
    StoreOk (placeNodes st ns).1.store ∧ ∀ it ∈ (placeNodes st ns).2, ItemOkP it := by
  have hits : ∀ it ∈ ns.map Item.plain, ItemOkP it := by
    intro it hit
    simp only [List.mem_map] at hit
    obtain ⟨n, hn, rfl⟩ := hit
    exact hns n hn
  unfold placeNodes
  cases st.current_scene with
  | some i => exact ⟨storeAppend_ok _ hits st.store i hst, by simp⟩
  | none =>
    cases st.current_act with
    | some j => exact ⟨storeAppend_ok _ hits st.store j hst, by simp⟩
    | none => exact ⟨hst, hits⟩

theorem placeAct_inv (st : TState) (ctx : Context) (v : String) (hst : StoreOk st.store) :
    StoreOk (placeAct st ctx v).1.store ∧ ∀ it ∈ (placeAct st ctx v).2, ItemOkP it := by
  unfold placeAct
  refine ⟨StoreOk_snoc _ _ hst ⟨rfl, ?_⟩, by simp [ItemOkP]⟩
  intro it hit
  simp only [List.mem_singleton] at hit
  subst hit
  exact deepOk_leaf _ _ _

theorem placeScene_inv (st : TState) (ctx : Context) (v : String) (hst : StoreOk st.store) :
    StoreOk (placeScene st ctx v).1.store ∧ ∀ it ∈ (placeScene st ctx v).2, ItemOkP it := by
  unfold placeScene
  have hsnoc : StoreOk (st.store ++
      [⟨ctx, .scene, [.plain ⟨ctx, .text, [], some v⟩], none⟩]) := by
    refine StoreOk_snoc _ _ hst ⟨rfl, ?_⟩
    intro it hit
    simp only [List.mem_singleton] at hit
    subst hit
    exact deepOk_leaf _ _ _
  cases st.current_act with
  | some j =>
    refine ⟨storeAppend_ok _ ?_ _ j hsnoc, by simp⟩
    intro it hit
    simp only [List.mem_singleton] at hit
    subst hit
    trivial
  | none => exact ⟨hsnoc, by simp [ItemOkP]⟩

theorem trackViolation_store (st : TState) (d : String) (c : Context)
    (sev : LintingViolationSeverity) : (trackViolation st d c sev).store = st.store := rfl

theorem updateMetadata_store (st : TState) (k v : String) (c : Context) :
    (updateMetadata st k v c).store = st.store := by
  unfold updateMetadata
  cases dictGet st.metadata k <;> rfl

theorem updatePlayName_store (st : TState) (v : String) (c : Context) :
    (updatePlayName st v c).store = st.store := by
  unfold updatePlayName
  cases st.play_name <;> rfl

theorem introduceStep_store (st : TState) (h n : String) (i : Option String)
    (c : Context) : (introduceStep st h n i c).store = st.store := by
  unfold introduceStep
  cases dictGet st.characters h <;> rfl

theorem runLevel_inv (dryRun : Bool) (fs : Fs)
    (inner : List (Context × TokMatch) → TState → TState × Except Err (List Item))
    (hinner : ∀ toks st st' out, inner toks st = (st', .ok out) → StoreOk st.store →
      StoreOk st'.store ∧ ∀ it ∈ out, ItemOkP it) :
    ∀ toks st st' out, runLevel dryRun fs inner toks st = (st', .ok out) →
      StoreOk st.store → StoreOk st'.store ∧ ∀ it ∈ out, ItemOkP it := by
  intro toks
  induction toks with
  | nil =>
    intro st st' out h hst
    simp only [runLevel, Prod.mk.injEq] at h
    obtain ⟨rfl, h2⟩ := h
    cases h2
    exact ⟨hst, by simp⟩
  | cons t rest ih =>
    rcases t with ⟨ctx, m⟩
    intro st st' out h hst
    cases m with
    | metadata k v =>
      exact ih _ _ _ h (by rw [updateMetadata_store]; exact hst)
    | play_name v =>
      exact ih _ _ _ h (by rw [updatePlayName_store]; exact hst)
    | act_name v =>
      simp only [runLevel] at h
      rw [withItems_ok_iff] at h
      obtain ⟨out', h1, rfl⟩ := h
      obtain ⟨hs1, hit1⟩ := placeAct_inv st ctx v hst
      obtain ⟨hs2, hit2⟩ := ih _ _ _ h1 hs1
      refine ⟨hs2, ?_⟩
      intro it hit
      rcases List.mem_append.mp hit with hit | hit
      · exact hit1 it hit
      · exact hit2 it hit
    | scene_name v =>
      simp only [runLevel] at h
      rw [withItems_ok_iff] at h
      obtain ⟨out', h1, rfl⟩ := h
      obtain ⟨hs1, hit1⟩ := placeScene_inv st ctx v hst
      obtain ⟨hs2, hit2⟩ := ih _ _ _ h1 hs1
      refine ⟨hs2, ?_⟩
      intro it hit
      rcases List.mem_append.mp hit with hit | hit
      · exact hit1 it hit
      · exact hit2 it hit
    | stage_direction v =>
      simp only [runLevel] at h
      rw [withItems_ok_iff] at h
      obtain ⟨out', h1, rfl⟩ := h
      set st1 : TState :=
        {st with violations :=
          st.violations ++ (processStageDirection ctx st.characters v).2} with hd1
      have hnode : ∀ n ∈ [(⟨ctx, .stage_direction,
          (processStageDirection ctx st.characters v).1, none⟩ : Node)], DeepOk n := by
        intro n hn
        simp only [List.mem_singleton] at hn
        subst hn
        exact deepOk_parent _ _ _ (processSDToks_nodes_ok ctx st.characters (scanSD v))
      have hs0 : StoreOk st1.store := hst
      obtain ⟨hs1, hit1⟩ := placeNodes_inv st1 _ hs0 hnode
      obtain ⟨hs2, hit2⟩ := ih _ _ _ h1 hs1
      refine ⟨hs2, ?_⟩
      intro it hit
      rcases List.mem_append.mp hit with hit | hit
      · exact hit1 it hit
      · exact hit2 it hit
    | dialogue sp body =>
      simp only [runLevel] at h
      rw [withItems_ok_iff] at h
      obtain ⟨out', h1, rfl⟩ := h
      set st1 : TState :=
        {st with violations :=
          st.violations ++ (processSpeakers ctx st.characters (stripStr sp)).2} with hd1
      set spNode : Node :=
        ⟨ctx, .speaker, (processSpeakers ctx st.characters (stripStr sp)).1, none⟩ with hd2
      set r1 := placeNodes st1 [spNode] with hd3
      set dia := processDialogue ctx r1.1.characters body with hd4
      set st3 : TState :=
        {r1.1 with violations := r1.1.violations ++ dia.2} with hd5
      set diaNode : Node := ⟨ctx, .dialogue, dia.1, none⟩ with hd6
      set r2 := placeNodes st3 [diaNode] with hd7
      have hsp : ∀ n ∈ [spNode], DeepOk n := by
        intro n hn
        simp only [List.mem_singleton] at hn
        subst hn
        exact deepOk_parent _ _ _
          (processSpeakerList_nodes_ok ctx st.characters (splitOnSep ',' (stripStr sp).data))
      have hs0 : StoreOk st1.store := hst
      obtain ⟨hs1, hit1⟩ := placeNodes_inv st1 _ hs0 hsp
      have hdia : ∀ n ∈ [diaNode], DeepOk n := by
        intro n hn
        simp only [List.mem_singleton] at hn
        subst hn
        exact deepOk_parent _ _ _ (processDiaToks_nodes_ok _ _ (scanDia body))
      have hs1' : StoreOk st3.store := hs1
      obtain ⟨hs2, hit2⟩ := placeNodes_inv st3 _ hs1' hdia
      obtain ⟨hs3, hit3⟩ := ih _ _ _ h1 hs2
      refine ⟨hs3, ?_⟩
      intro it hit
      rcases List.mem_append.mp hit with hit | hit
      · rcases List.mem_append.mp hit with hit | hit
        · exact hit1 it hit
        · exact hit2 it hit
      · exact hit3 it hit
    | function name args =>
      simp only [runLevel] at h
      by_cases hn : name = "introduce"
      · rw [if_pos hn] at h
        cases args with
        | none => exact absurd h (by simp)
        | some a =>
          dsimp only at h
          rcases hp : parseArgs a with _ | ⟨a1, _ | ⟨a2, _ | ⟨a3, _ | ⟨a4, t⟩⟩⟩⟩ <;>
            rw [hp] at h
          · exact absurd h (by simp)
          · exact absurd h (by simp)
          · exact ih _ _ _ h (by rw [introduceStep_store]; exact hst)
          · exact ih _ _ _ h (by rw [introduceStep_store]; exact hst)
          · exact absurd h (by simp)
      · by_cases hi : name = "include"
        · rw [if_neg hn, if_pos hi] at h
          cases args with
          | none => exact absurd h (by simp)
          | some a =>
            dsimp only at h
            rcases hp : parseArgs a with _ | ⟨a1, _ | ⟨a2, t⟩⟩ <;> rw [hp] at h
            · exact absurd h (by simp)
            · dsimp only at h
              rcases hres : dictGet fs (pathResolve (pathJoin (pathParent ctx.path) a1))
                with _ | content <;> rw [hres] at h
              · cases dryRun with
                | false => exact absurd h (by simp)
                | true => exact ih _ _ _ h (by rw [trackViolation_store]; exact hst)
              · dsimp only at h
                by_cases hcyc :
                  st.include_stack.contains
                    (pathResolve (pathJoin (pathParent ctx.path) a1)) = true
                · rw [if_pos hcyc] at h
                  cases dryRun with
                  | false => exact absurd h (by simp)
                  | true => exact ih _ _ _ h (by rw [trackViolation_store]; exact hst)
                · rw [if_neg hcyc] at h
                  rcases hin : inner
                      (toToks (pathResolve (pathJoin (pathParent ctx.path) a1)) content)
                      {st with include_stack :=
                        st.include_stack ++
                          [pathResolve (pathJoin (pathParent ctx.path) a1)]} with
                    ⟨st2, r2⟩
                  rw [hin] at h
                  cases r2 with
                  | error e => exact absurd h (by simp)
                  | ok innerItems =>
                    rw [withItems_ok_iff] at h
                    obtain ⟨out', h1, rfl⟩ := h
                    obtain ⟨hs2, hit2⟩ := hinner _ _ _ _ hin (by exact hst)
                    obtain ⟨hs3, hit3⟩ := ih _ _ _ h1 (by exact hs2)
                    refine ⟨hs3, ?_⟩
                    intro it hit
                    rcases List.mem_append.mp hit with hit | hit
                    · exact hit2 it hit
                    · exact hit3 it hit
            · exact absurd h (by simp)
        · rw [if_neg hn, if_neg hi] at h
          cases dryRun with
          | false => exact absurd h (by simp)
          | true => exact ih _ _ _ h (by rw [trackViolation_store]; exact hst)

theorem runToks_inv (dryRun : Bool) (fs : Fs) :
    ∀ fuel toks st st' out, runToks dryRun fs fuel toks st = (st', .ok out) →
      StoreOk st.store → StoreOk st'.store ∧ ∀ it ∈ out, ItemOkP it := by
  intro fuel
  induction fuel with
  | zero => intro toks st st' out h; exact absurd h (by simp [runToks])
  | succ fuel ih => exact runLevel_inv dryRun fs _ ih

theorem resolveItems_ok (store : List NodeB) (hs : StoreOk store) :
    ∀ fuel items, (∀ it ∈ items, ItemOkP it) →
      ∀ n ∈ resolveItems store fuel items, DeepOk n := by
  intro fuel
  induction fuel with
  | zero => intro items _ n hn; simp [resolveItems] at hn
  | succ fuel ih =>
    intro items hits n hn
    simp only [resolveItems, List.mem_map] at hn
    obtain ⟨it, hit, rfl⟩ := hn
    cases it with
    | plain p => exact hits _ hit
    | ref i =>
      rcases hg : store.get? i with _ | b
      · simp only [hg]
        exact deepOk_leaf _ _ _
      · simp only [hg]
        have hb := hs b (List.get?_mem hg)
        have : DeepOk ⟨b.context, b.kind, resolveItems store fuel b.children, none⟩ :=
          deepOk_parent _ _ _ (ih b.children hb.2)
        rw [hb.1]
        exact this

/-- C2: constructing a Node with both (non-empty) children and a
truthy text payload fails fast with the `ValueError` message, and, as a
consequence of every engine construction site passing either empty
children or no text, every node reachable from a parsed document's
`nodes` satisfies the invariant recursively. -/
theorem C2_node_invariant :
    (∀ ctx k cs t, mkNode ctx k cs t =
        .error "Node cannot have both children and a text content" ↔
        (cs ≠ [] ∧ textTruthy t = true)) ∧
    (∀ fuel fs path d st doc, parseModel fuel fs path d = (st, .ok doc) →
      ∀ n ∈ doc.nodes, DeepOk n) := by
  constructor
  · intro ctx k cs t
    unfold mkNode
    by_cases hc : cs.isEmpty
    · have : cs = [] := by simpa [List.isEmpty_iff] using hc
      simp [hc, this]
    · have hcs : cs ≠ [] := by simpa [List.isEmpty_iff] using hc
      cases ht : textTruthy t
      · simp [hc, ht]
      · simp [hc, ht, hcs]
  · intro fuel fs path d st doc h n hn
    unfold parseModel at h
    rcases hc : dictGet fs path with _ | content <;> rw [hc] at h
    · exact absurd h (by simp)
    · dsimp only at h
      rcases hr : runToks d fs fuel (toToks path content) initState with ⟨st1, r1⟩
      rw [hr] at h
      cases r1 with
      | error e => exact absurd h (by simp)
      | ok items =>
        simp only [Prod.mk.injEq, Except.ok.injEq] at h
        obtain ⟨rfl, rfl⟩ := h
        have hinit : StoreOk (initState.store) := by
          intro b hb
          simp [initState] at hb
        obtain ⟨hs, hits⟩ := runToks_inv d fs fuel _ _ _ _ hr hinit
        exact resolveItems_ok _ hs _ items hits n hn

/-- Witness for C2's parse part at the concrete C7 input. -/
theorem C2_witness :
    ∀ n ∈ c7Expected.nodes, DeepOk n :=
  C2_node_invariant.2 1 (exFs "# My Play\n/introduce tom; Tom; none\n@tom: Hi\n")
    "/main.play" false
    ⟨[], [("tom", ⟨"tom", "Tom", exCtx 2, some "none"⟩)], some "My Play",
     [], [], [], none, none⟩ c7Expected rfl

/-! Section: C4: play title handling (last write wins) -/

theorem updatePlayName_play (st : TState) (v : String) (c : Context) :
    (updatePlayName st v c).play_name = some v := by
  unfold updatePlayName
  cases st.play_name <;> rfl

theorem updateMetadata_play (st : TState) (k v : String) (c : Context) :
    (updateMetadata st k v c).play_name = st.play_name := by
  unfold updateMetadata
  cases dictGet st.metadata k <;> rfl

theorem placeAct_play (st : TState) (ctx : Context) (v : String) :
    (placeAct st ctx v).1.play_name = st.play_name := rfl

theorem placeNodes_play (st : TState) (ns : List Node) :
    (placeNodes st ns).1.play_name = st.play_name := by
  unfold placeNodes
  cases st.current_scene
  · cases st.current_act <;> rfl
  · rfl

theorem placeScene_play (st : TState) (ctx : Context) (v : String) :
    (placeScene st ctx v).1.play_name = st.play_name := by
  unfold placeScene
  cases st.current_act <;> rfl

/-- For a function-free match stream (no `/name` calls, hence no
includes, no crashes and no strict-mode raises), the final play name is
the value of the last play-title match, or the initial name when there is
none. -/
theorem runLevel_play (dryRun : Bool) (fs : Fs)
    (inner : List (Context × TokMatch) → TState → TState × Except Err (List Item)) :
    ∀ toks st, (∀ t ∈ toks, isFunction t.2 = false) →
      ((runLevel dryRun fs inner toks st).1).play_name =
        (match lastPlay toks with
         | some v => some v
         | none => st.play_name) := by
  intro toks
  induction toks with
  | nil => intro st _; rfl
  | cons t rest ih =>
    rcases t with ⟨ctx, m⟩
    intro st hfree
    have hrest : ∀ t ∈ rest, isFunction t.2 = false := fun t ht =>
      hfree t (List.mem_cons_of_mem _ ht)
    cases m with
    | metadata k v =>
      rw [show runLevel dryRun fs inner ((ctx, .metadata k v) :: rest) st =
        runLevel dryRun fs inner rest (updateMetadata st k v ctx) from rfl]
      rw [ih _ hrest]
      cases hl : lastPlay rest <;> simp [lastPlay, hl, updateMetadata_play]
    | play_name v =>
      rw [show runLevel dryRun fs inner ((ctx, .play_name v) :: rest) st =
        runLevel dryRun fs inner rest (updatePlayName st v ctx) from rfl]
      rw [ih _ hrest]
      cases hl : lastPlay rest <;> simp [lastPlay, hl, updatePlayName_play]
    | act_name v =>
      rw [show runLevel dryRun fs inner ((ctx, .act_name v) :: rest) st =
        withItems (placeAct st ctx v).2
          (runLevel dryRun fs inner rest (placeAct st ctx v).1) from rfl]
      rw [withItems_fst, ih _ hrest]
      cases hl : lastPlay rest <;> simp [lastPlay, hl, placeAct_play]
    | scene_name v =>
      rw [show runLevel dryRun fs inner ((ctx, .scene_name v) :: rest) st =
        withItems (placeScene st ctx v).2
          (runLevel dryRun fs inner rest (placeScene st ctx v).1) from rfl]
      rw [withItems_fst, ih _ hrest]
      cases hl : lastPlay rest <;> simp [lastPlay, hl, placeScene_play]
    | stage_direction v =>
      rw [show runLevel dryRun fs inner ((ctx, .stage_direction v) :: rest) st =
        withItems (placeNodes
            {st with violations :=
              st.violations ++ (processStageDirection ctx st.characters v).2}
            [⟨ctx, .stage_direction, (processStageDirection ctx st.characters v).1, none⟩]).2
          (runLevel dryRun fs inner rest (placeNodes
            {st with violations :=
              st.violations ++ (processStageDirection ctx st.characters v).2}
            [⟨ctx, .stage_direction,
              (processStageDirection ctx st.characters v).1, none⟩]).1) from rfl]
      rw [withItems_fst, ih _ hrest]
      cases hl : lastPlay rest <;> simp [lastPlay, hl, placeNodes_play]
    | dialogue sp body =>
      simp only [runLevel]
      rw [withItems_fst, ih _ hrest]
      cases hl : lastPlay rest <;> simp [lastPlay, hl, placeNodes_play]
    | function name args =>
      exact absurd (hfree (ctx, .function name args) (by simp)) (by simp [isFunction])

/-- C4 (amended): the play name is **last** write wins.  Part one: for
any input whose match stream contains no function calls, the parsed
document's name is the text of the *last* play-title line (or absent when
there is none).  Part two: processing a play-title match while a name is
already set appends exactly one Warning violation (mentioning the old
name) and *overwrites* the name with the new value, the run simply
continuing — the later value is not ignored. -/
theorem C4_amended_last_wins :
    (∀ fuel fs path d content st doc,
      dictGet fs path = some content →
      (∀ t ∈ toToks path content, isFunction t.2 = false) →
      parseModel fuel fs path d = (st, .ok doc) →
      doc.name = lastPlay (toToks path content)) ∧
    (∀ dryRun fs fuel ctx v post st old,
      st.play_name = some old →
      runToks dryRun fs (fuel + 1) ((ctx, .play_name v) :: post) st =
        runToks dryRun fs (fuel + 1) post
          {st with violations := st.violations ++ [⟨dupNameDesc old, ctx, .warning⟩],
                   play_name := some v}) := by
  constructor
  · intro fuel fs path d content st doc hc hfree h
    unfold parseModel at h
    rw [hc] at h
    dsimp only at h
    rcases hr : runToks d fs fuel (toToks path content) initState with ⟨st1, r1⟩
    rw [hr] at h
    cases r1 with
    | error e => exact absurd h (by simp)
    | ok items =>
      simp only [Prod.mk.injEq, Except.ok.injEq] at h
      obtain ⟨rfl, rfl⟩ := h
      cases fuel with
      | zero => exact absurd hr (by simp [runToks])
      | succ fuel =>
        have hplay := runLevel_play d fs (runToks d fs fuel) (toToks path content)
          initState hfree
        rw [show runLevel d fs (runToks d fs fuel) (toToks path content) initState =
          (st1, Except.ok items) from hr] at hplay
        show st1.play_name = _
        rw [hplay]
        cases lastPlay (toToks path content) <;> rfl
  · intro dryRun fs fuel ctx v post st old hold
    show runLevel dryRun fs (runToks dryRun fs fuel) ((ctx, .play_name v) :: post) st = _
    simp only [runLevel]
    congr 1
    unfold updatePlayName
    rw [hold]
    rfl

/-- Witness for C4's amended statement: the counterexample input
`"# A\n# B\n"` instantiates part one; a state that already carries a name
instantiates part two. -/
theorem C4_amended_witness :
    ((⟨some "B", [], [], [],
        [⟨dupNameDesc "A", exCtx 2, .warning⟩]⟩ : StageScriptR).name =
      lastPlay (toToks "/main.play" "# A\n# B\n")) ∧
    (runToks false (exFs "# A\n# B\n") 1 [(exCtx 2, .play_name "B")]
        ⟨[], [], some "A", [], [], [], none, none⟩ =
      runToks false (exFs "# A\n# B\n") 1 []
        {(⟨[], [], some "A", [], [], [], none, none⟩ : TState) with
          violations := ([] : List LintingViolation) ++
            [⟨dupNameDesc "A", exCtx 2, .warning⟩],
          play_name := some "B"}) :=
  ⟨C4_amended_last_wins.1 1 (exFs "# A\n# B\n") "/main.play" false "# A\n# B\n" _ _
      rfl (by decide) rfl,
   C4_amended_last_wins.2 false (exFs "# A\n# B\n") 0 (exCtx 2) "B" [] _ "A" rfl⟩

/-! Section: C5 (amended): mentions are parsed in stage directions only -/

/-- C5 (amended): the mention sub-parser runs over stage-direction
text — block directions and the `{...}` inline spans of a dialogue — but
*not* over plain dialogue text: every direct child of a Dialogue node is
either a childless `DIALOGUE` text run (any `@handle` in it stays inside
the plain text) or an `INLINE_STAGE_DIRECTION` node, whose children are
exactly the mention sub-parser's output for the span. -/
theorem C5_amended_no_dialogue_mentions :
    ∀ ctx chars body n, n ∈ (processDialogue ctx chars body).1 →
      (n.kind = .dialogue ∧ n.children = []) ∨
      (n.kind = .inline_stage_direction ∧
        ∃ v, .inline v ∈ scanDia body ∧
          n.children = (processStageDirection ctx chars v).1) := by
  intro ctx chars body
  show ∀ n, n ∈ (processDiaToks ctx chars (scanDia body)).1 → _
  generalize scanDia body = toks
  induction toks with
  | nil => intro n hn; simp [processDiaToks] at hn
  | cons t rest ih =>
    intro n hn
    cases t with
    | inline v =>
      simp only [processDiaToks, List.mem_cons] at hn
      rcases hn with rfl | hn
      · exact .inr ⟨rfl, v, by simp, rfl⟩
      · rcases ih n hn with h | ⟨hk, w, hw, hc⟩
        · exact .inl h
        · exact .inr ⟨hk, w, by simp [hw], hc⟩
    | text v =>
      simp only [processDiaToks, List.mem_cons] at hn
      rcases hn with rfl | hn
      · exact .inl ⟨rfl, rfl⟩
      · rcases ih n hn with h | ⟨hk, w, hw, hc⟩
        · exact .inl h
        · exact .inr ⟨hk, w, by simp [hw], hc⟩

/-- Witness for C5's amended statement at the counterexample's dialogue
body, instantiated at its single produced child node. -/
theorem C5_amended_witness :
    ((⟨exCtx 1, NodeKind.dialogue, [], some "hi @bob\n"⟩ : Node).kind =
        NodeKind.dialogue ∧
      (⟨exCtx 1, NodeKind.dialogue, [], some "hi @bob\n"⟩ : Node).children = []) ∨
    ((⟨exCtx 1, NodeKind.dialogue, [], some "hi @bob\n"⟩ : Node).kind =
        NodeKind.inline_stage_direction ∧
      ∃ v, DiaTok.inline v ∈ scanDia "hi @bob\n" ∧
        (⟨exCtx 1, NodeKind.dialogue, [], some "hi @bob\n"⟩ : Node).children =
          (processStageDirection (exCtx 1) [] v).1) :=
  C5_amended_no_dialogue_mentions (exCtx 1) [] "hi @bob\n"
    ⟨exCtx 1, NodeKind.dialogue, [], some "hi @bob\n"⟩
    (by
      rw [show (processDialogue (exCtx 1) [] "hi @bob\n").1 =
        [⟨exCtx 1, NodeKind.dialogue, [], some "hi @bob\n"⟩] from rfl]
      exact List.mem_singleton.mpr rfl)

/-! Section: C6 (amended): the include-cycle guard -/

/-- C6 (amended): when processing reaches an `/include` whose resolved
target exists and is already on the include stack, the guard fires: in
strict mode the run raises a `ParsingError` identifying the include site
and the cyclic path (the message does not list the whole chain), after
recording the Error violation; in lint/dry-run mode it records exactly
that one Error-severity violation and the include contributes no items —
the scan continues right after the call site.  (The guard compares
against `_include_stack`, which never holds the top-level file, so a
self-include of the root recurses once before this point — see the
counterexample.) -/
theorem C6_amended_cycle_guard :
    ∀ fs fuel ctx a inc resolved content post st,
      parseArgs a = [inc] →
      pathResolve (pathJoin (pathParent ctx.path) inc) = resolved →
      dictGet fs resolved = some content →
      st.include_stack.contains resolved = true →
      (runToks false fs (fuel + 1) ((ctx, .function "include" (some a)) :: post) st =
        ({st with violations :=
            st.violations ++ [⟨cyclicDesc resolved, ctx, .error⟩]},
         .error (.parsing (cyclicMsg ctx resolved)))) ∧
      (runToks true fs (fuel + 1) ((ctx, .function "include" (some a)) :: post) st =
        runToks true fs (fuel + 1) post
          {st with violations :=
            st.violations ++ [⟨cyclicDesc resolved, ctx, .error⟩]}) := by
  intro fs fuel ctx a inc resolved content post st hp hr hc hcyc
  constructor
  · show runLevel false fs (runToks false fs fuel)
      ((ctx, .function "include" (some a)) :: post) st = _
    simp only [runLevel, reduceIte]
    rw [hp]
    dsimp only
    rw [hr, hc]
    dsimp only
    rw [if_pos hcyc]
    rfl
  · show runLevel true fs (runToks true fs fuel)
      ((ctx, .function "include" (some a)) :: post) st = _
    simp only [runLevel, reduceIte]
    rw [hp]
    dsimp only
    rw [hr, hc]
    dsimp only
    rw [if_pos hcyc]
    rfl

/-- Witness for C6's amended statement: the direct self-include of the
counterexample, at the point where `/a.play` is already on the stack. -/
theorem C6_amended_witness :
    (runToks false [("/a.play", "> hi\n/include a.play")] 1
        [(⟨"/a.play", 2⟩, .function "include" (some "a.play"))]
        ⟨[], [], none, [], ["/a.play"], [], none, none⟩ =
      ({(⟨[], [], none, [], ["/a.play"], [], none, none⟩ : TState) with
          violations := ([] : List LintingViolation) ++
            [⟨cyclicDesc "/a.play", ⟨"/a.play", 2⟩, .error⟩]},
       .error (.parsing (cyclicMsg ⟨"/a.play", 2⟩ "/a.play")))) ∧
    (runToks true [("/a.play", "> hi\n/include a.play")] 1
        [(⟨"/a.play", 2⟩, .function "include" (some "a.play"))]
        ⟨[], [], none, [], ["/a.play"], [], none, none⟩ =
      runToks true [("/a.play", "> hi\n/include a.play")] 1 []
        {(⟨[], [], none, [], ["/a.play"], [], none, none⟩ : TState) with
          violations := ([] : List LintingViolation) ++
            [⟨cyclicDesc "/a.play", ⟨"/a.play", 2⟩, .error⟩]}) :=
  C6_amended_cycle_guard [("/a.play", "> hi\n/include a.play")] 0 ⟨"/a.play", 2⟩
    "a.play" "a.play" "/a.play" "> hi\n/include a.play" []
    ⟨[], [], none, [], ["/a.play"], [], none, none⟩ rfl rfl rfl rfl

/-! Section: C8: mention resolution against the registry accumulated so far -/

theorem processSDToks_viols (ctx : Context) (chars : List (String × Character)) :
    ∀ toks, (processSDToks ctx chars toks).2 =
      ((sdMentions toks).filter (fun c => !dictContains chars c)).map (mentionViol ctx) := by
  intro toks
  induction toks with
  | nil => rfl
  | cons t rest ih =>
    rcases t with ⟨_ | d, ch⟩ | v <;>
      simp only [processSDToks, sdMentions, List.filter_cons, ih]
    · by_cases hc : dictContains chars ch <;> simp [hc]
    · by_cases hc : dictContains chars ch <;> simp [hc]

theorem processSDToks_viols_warning (ctx : Context) (chars : List (String × Character)) :
    ∀ toks, ∀ w ∈ (processSDToks ctx chars toks).2, w.severity = .warning := by
  intro toks
  induction toks with
  | nil => intro w hw; simp [processSDToks] at hw
  | cons t rest ih =>
    intro w hw
    rcases t with ⟨_ | d, ch⟩ | v
    · simp only [processSDToks, List.mem_append] at hw
      rcases hw with hw | hw
      · by_cases hc : dictContains chars ch
        · rw [if_pos hc] at hw
          simp at hw
        · rw [if_neg hc] at hw
          simp only [List.mem_singleton] at hw
          subst hw
          rfl
      · exact ih w hw
    · simp only [processSDToks, List.mem_append] at hw
      rcases hw with hw | hw
      · by_cases hc : dictContains chars ch
        · rw [if_pos hc] at hw
          simp at hw
        · rw [if_neg hc] at hw
          simp only [List.mem_singleton] at hw
          subst hw
          rfl
      · exact ih w hw
    · exact ih w (by simpa [processSDToks] using hw)

theorem updateMetadata_chars (st : TState) (k v : String) (c : Context) :
    (updateMetadata st k v c).characters = st.characters := by
  unfold updateMetadata
  cases dictGet st.metadata k <;> rfl

theorem updatePlayName_chars (st : TState) (v : String) (c : Context) :
    (updatePlayName st v c).characters = st.characters := by
  unfold updatePlayName
  cases st.play_name <;> rfl

theorem placeNodes_chars (st : TState) (ns : List Node) :
    (placeNodes st ns).1.characters = st.characters := by
  unfold placeNodes
  cases st.current_scene
  · cases st.current_act <;> rfl
  · rfl

theorem placeScene_chars (st : TState) (ctx : Context) (v : String) :
    (placeScene st ctx v).1.characters = st.characters := by
  unfold placeScene
  cases st.current_act <;> rfl

theorem introduceStep_contains (st : TState) (h n : String) (i : Option String)
    (c : Context) (x : String) (hx : dictContains st.characters x = true) :
    dictContains (introduceStep st h n i c).characters x = true := by
  unfold introduceStep
  cases dictGet st.characters h <;>
    exact dictContains_set _ _ _ _ hx

theorem introduceStep_registers (st : TState) (h n : String) (i : Option String)
    (c : Context) : dictContains (introduceStep st h n i c).characters h = true := by
  unfold introduceStep
  cases dictGet st.characters h <;>
    simp [dictContains, dictGet_set_self]

theorem runLevel_chars (dryRun : Bool) (fs : Fs)
    (inner : List (Context × TokMatch) → TState → TState × Except Err (List Item))
    (hinner : ∀ toks st, charsSub st (inner toks st).1) :
    ∀ toks st, charsSub st (runLevel dryRun fs inner toks st).1 := by
  intro toks
  induction toks with
  | nil => intro st x hx; exact hx
  | cons t rest ih =>
    rcases t with ⟨ctx, m⟩
    intro st x hx
    cases m with
    | metadata k v =>
      exact ih (updateMetadata st k v ctx) x (by rw [updateMetadata_chars]; exact hx)
    | play_name v =>
      exact ih (updatePlayName st v ctx) x (by rw [updatePlayName_chars]; exact hx)
    | act_name v =>
      show dictContains ((withItems (placeAct st ctx v).2
        (runLevel dryRun fs inner rest (placeAct st ctx v).1)).1).characters x = true
      rw [withItems_fst]
      exact ih _ x hx
    | scene_name v =>
      show dictContains ((withItems (placeScene st ctx v).2
        (runLevel dryRun fs inner rest (placeScene st ctx v).1)).1).characters x = true
      rw [withItems_fst]
      exact ih _ x (by rw [placeScene_chars]; exact hx)
    | stage_direction v =>
      simp only [runLevel]
      rw [withItems_fst]
      refine ih _ x ?_
      rw [placeNodes_chars]
      exact hx
    | dialogue sp body =>
      simp only [runLevel]
      rw [withItems_fst]
      refine ih _ x ?_
      rw [placeNodes_chars]
      dsimp only
      rw [placeNodes_chars]
      exact hx
    | function name args =>
      simp only [runLevel]
      by_cases hn : name = "introduce"
      · rw [if_pos hn]
        cases args with
        | none => exact hx
        | some a =>
          dsimp only
          rcases hp : parseArgs a with _ | ⟨a1, _ | ⟨a2, _ | ⟨a3, _ | ⟨a4, t⟩⟩⟩⟩
          · exact hx
          · exact hx
          · exact ih _ x (introduceStep_contains st a1 a2 none ctx x hx)
          · exact ih _ x (introduceStep_contains st a1 a2 (some a3) ctx x hx)
          · exact hx
      · by_cases hi : name = "include"
        · rw [if_neg hn, if_pos hi]
          cases args with
          | none => exact hx
          | some a =>
            dsimp only
            rcases hp : parseArgs a with _ | ⟨a1, _ | ⟨a2, t⟩⟩
            · exact hx
            · dsimp only
              rcases hres : dictGet fs (pathResolve (pathJoin (pathParent ctx.path) a1))
                with _ | content
              · cases dryRun with
                | false => exact hx
                | true => exact ih _ x hx
              · dsimp only
                by_cases hcyc :
                  st.include_stack.contains
                    (pathResolve (pathJoin (pathParent ctx.path) a1)) = true
                · rw [if_pos hcyc]
                  cases dryRun with
                  | false => exact hx
                  | true => exact ih _ x hx
                · rw [if_neg hcyc]
                  rcases hin : inner
                      (toToks (pathResolve (pathJoin (pathParent ctx.path) a1)) content)
                      {st with include_stack :=
                        st.include_stack ++
                          [pathResolve (pathJoin (pathParent ctx.path) a1)]} with
                    ⟨st2, r2⟩
                  have hst2 : dictContains st2.characters x = true := by
                    have hmono := hinner
                      (toToks (pathResolve (pathJoin (pathParent ctx.path) a1)) content)
                      {st with include_stack :=
                        st.include_stack ++
                          [pathResolve (pathJoin (pathParent ctx.path) a1)]} x hx
                    rw [hin] at hmono
                    exact hmono
                  cases r2 with
                  | error e => exact hst2
                  | ok innerItems =>
                    dsimp only
                    rw [withItems_fst]
                    exact ih _ x hst2
            · exact hx
        · rw [if_neg hn, if_neg hi]
          cases dryRun with
          | false => exact hx
          | true => exact ih _ x hx

theorem runToks_chars (dryRun : Bool) (fs : Fs) :
    ∀ fuel toks st, charsSub st (runToks dryRun fs fuel toks st).1 := by
  intro fuel
  induction fuel with
  | zero => intro toks st x hx; exact hx
  | succ fuel ih => exact runLevel_chars dryRun fs _ ih

/-- C8: resolution of `@handle` mentions in stage-direction text uses
the registry state accumulated so far.  (i) The Warning list a scanned
stage direction records is exactly one `mentionViol` per mention whose
character is missing from the registry at that moment, in order.  (ii) A
handle present in the registry is never among those unresolved mentions —
zero violations are recorded for it.  (iii) A handle absent from the
registry passes the filter at every one of its occurrences — each such
mention records exactly one violation (one per occurrence).  (iv) All
these violations have Warning severity.  (v) A processed `/introduce`
registers its handle and the registry only grows afterwards, so the
handle is still present at every later point of the run. -/
theorem C8_mention_resolution :
    (∀ ctx chars v,
      (processStageDirection ctx chars v).2 =
        ((sdMentions (scanSD v)).filter
          (fun c => !dictContains chars c)).map (mentionViol ctx)) ∧
    (∀ (chars : List (String × Character)) v h, dictContains chars h = true →
      h ∉ (sdMentions (scanSD v)).filter (fun c => !dictContains chars c)) ∧
    (∀ (chars : List (String × Character)) v h, dictContains chars h = false →
      ((sdMentions (scanSD v)).filter (fun c => !dictContains chars c)).count h =
        (sdMentions (scanSD v)).count h) ∧
    (∀ ctx chars v w, w ∈ (processStageDirection ctx chars v).2 →
      w.severity = .warning) ∧
    (∀ dryRun fs fuel ctx a h n i rest st,
      (parseArgs a = [h, n] ∨ parseArgs a = [h, n, i]) →
      dictContains ((runToks dryRun fs (fuel + 1)
          ((ctx, .function "introduce" (some a)) :: rest) st).1).characters h = true) := by
  refine ⟨?_, ?_, ?_, ?_, ?_⟩
  · intro ctx chars v
    exact processSDToks_viols ctx chars (scanSD v)
  · intro chars v h hc hmem
    rw [List.mem_filter] at hmem
    rw [hc] at hmem
    simp at hmem
  · intro chars v h hc
    exact List.count_filter (by simp [hc])
  · intro ctx chars v w hw
    exact processSDToks_viols_warning ctx chars (scanSD v) w hw
  · intro dryRun fs fuel ctx a h n i rest st hp
    show dictContains ((runLevel dryRun fs (runToks dryRun fs fuel)
      ((ctx, .function "introduce" (some a)) :: rest) st).1).characters h = true
    simp only [runLevel, reduceIte]
    rcases hp with hp | hp <;> rw [hp]
    · exact runToks_chars dryRun fs (fuel + 1) rest _ h
        (introduceStep_registers st h n none ctx)
    · exact runToks_chars dryRun fs (fuel + 1) rest _ h
        (introduceStep_registers st h n (some i) ctx)

/-- Witness for C8 at concrete values: the registry holding `tom`, the
direction `"@tom waves"` resolving without a violation for `tom`, the
empty registry recording one per occurrence, and a concrete introduce
step registering its handle. -/
theorem C8_witness :
    ((processStageDirection (exCtx 1)
        [("tom", (⟨"tom", "Tom", exCtx 1, none⟩ : Character))] "@tom waves").2 =
      ((sdMentions (scanSD "@tom waves")).filter
        (fun c => !dictContains
          [("tom", (⟨"tom", "Tom", exCtx 1, none⟩ : Character))] c)).map
        (mentionViol (exCtx 1))) ∧
    ("tom" ∉ (sdMentions (scanSD "@tom waves")).filter
      (fun c => !dictContains [("tom", (⟨"tom", "Tom", exCtx 1, none⟩ : Character))] c)) ∧
    (((sdMentions (scanSD "@carl waves")).filter
        (fun c => !dictContains ([] : List (String × Character)) c)).count "carl" =
      (sdMentions (scanSD "@carl waves")).count "carl") ∧
    (dictContains ((runToks false (exFs "x") 1
        [(exCtx 1, .function "introduce" (some "tom; Tom"))] initState).1).characters
      "tom" = true) :=
  ⟨C8_mention_resolution.1 (exCtx 1) [("tom", ⟨"tom", "Tom", exCtx 1, none⟩)] "@tom waves",
   C8_mention_resolution.2.1 [("tom", ⟨"tom", "Tom", exCtx 1, none⟩)] "@tom waves" "tom"
     (by decide),
   C8_mention_resolution.2.2.1 [] "@carl waves" "carl" (by decide),
   C8_mention_resolution.2.2.2.2 false (exFs "x") 0 (exCtx 1) "tom; Tom" "tom" "Tom"
     "" [] initState (.inl (by decide))⟩

/-! Section: C9: re-introduction warns once, later definition wins -/

theorem runLevel_chars_eq (dryRun : Bool) (fs : Fs)
    (inner : List (Context × TokMatch) → TState → TState × Except Err (List Item)) :
    ∀ toks st, (∀ t ∈ toks, isFunction t.2 = false) →
      ((runLevel dryRun fs inner toks st).1).characters = st.characters := by
  intro toks
  induction toks with
  | nil => intro st _; rfl
  | cons t rest ih =>
    rcases t with ⟨ctx, m⟩
    intro st hfree
    have hrest : ∀ t ∈ rest, isFunction t.2 = false := fun t ht =>
      hfree t (List.mem_cons_of_mem _ ht)
    cases m with
    | metadata k v =>
      rw [show runLevel dryRun fs inner ((ctx, .metadata k v) :: rest) st =
        runLevel dryRun fs inner rest (updateMetadata st k v ctx) from rfl,
        ih _ hrest, updateMetadata_chars]
    | play_name v =>
      rw [show runLevel dryRun fs inner ((ctx, .play_name v) :: rest) st =
        runLevel dryRun fs inner rest (updatePlayName st v ctx) from rfl,
        ih _ hrest, updatePlayName_chars]
    | act_name v =>
      show ((withItems (placeAct st ctx v).2
        (runLevel dryRun fs inner rest (placeAct st ctx v).1)).1).characters = _
      rw [withItems_fst, ih _ hrest]
      rfl
    | scene_name v =>
      show ((withItems (placeScene st ctx v).2
        (runLevel dryRun fs inner rest (placeScene st ctx v).1)).1).characters = _
      rw [withItems_fst, ih _ hrest, placeScene_chars]
    | stage_direction v =>
      simp only [runLevel]
      rw [withItems_fst, ih _ hrest, placeNodes_chars]
    | dialogue sp body =>
      simp only [runLevel]
      rw [withItems_fst, ih _ hrest, placeNodes_chars]
      dsimp only
      rw [placeNodes_chars]
    | function name args =>
      exact absurd (hfree (ctx, .function name args) (by simp)) (by simp [isFunction])

/-- C9: a second `/introduce` of an already-registered handle records
exactly one Warning violation (naming the handle and the original
introduction site), never raises in either mode — the run simply
continues on the rest of the stream — and overwrites the registry entry:
afterwards the handle maps to the later definition, and it keeps doing so
through any function-free continuation. -/
theorem C9_reintroduce_last_wins :
    (∀ dryRun fs fuel ctx a h n post st old,
      parseArgs a = [h, n] →
      dictGet st.characters h = some old →
      runToks dryRun fs (fuel + 1) ((ctx, .function "introduce" (some a)) :: post) st =
        runToks dryRun fs (fuel + 1) post
          {st with violations := st.violations ++ [⟨dupCharDesc h old, ctx, .warning⟩],
                   characters := dictSet st.characters h ⟨h, n, ctx, none⟩}) ∧
    (∀ dryRun fs fuel ctx a h n i post st old,
      parseArgs a = [h, n, i] →
      dictGet st.characters h = some old →
      runToks dryRun fs (fuel + 1) ((ctx, .function "introduce" (some a)) :: post) st =
        runToks dryRun fs (fuel + 1) post
          {st with violations := st.violations ++ [⟨dupCharDesc h old, ctx, .warning⟩],
                   characters := dictSet st.characters h ⟨h, n, ctx, some i⟩}) ∧
    (∀ st h n i ctx, dictGet (introduceStep st h n i ctx).characters h =
      some ⟨h, n, ctx, i⟩) ∧
    (∀ dryRun fs fuel toks st, (∀ t ∈ toks, isFunction t.2 = false) →
      ((runToks dryRun fs fuel toks st).1).characters = st.characters) := by
  refine ⟨?_, ?_, ?_, ?_⟩
  · intro dryRun fs fuel ctx a h n post st old hp hold
    show runLevel dryRun fs (runToks dryRun fs fuel)
      ((ctx, .function "introduce" (some a)) :: post) st = _
    simp only [runLevel, reduceIte]
    rw [hp]
    dsimp only
    rw [show runToks dryRun fs (fuel + 1) =
      runLevel dryRun fs (runToks dryRun fs fuel) from rfl]
    congr 1
    unfold introduceStep
    rw [hold]
    rfl
  · intro dryRun fs fuel ctx a h n i post st old hp hold
    show runLevel dryRun fs (runToks dryRun fs fuel)
      ((ctx, .function "introduce" (some a)) :: post) st = _
    simp only [runLevel, reduceIte]
    rw [hp]
    dsimp only
    rw [show runToks dryRun fs (fuel + 1) =
      runLevel dryRun fs (runToks dryRun fs fuel) from rfl]
    congr 1
    unfold introduceStep
    rw [hold]
    rfl
  · intro st h n i ctx
    unfold introduceStep
    cases dictGet st.characters h <;>
      exact dictGet_set_self _ _ _
  · intro dryRun fs fuel toks st hfree
    cases fuel with
    | zero => rfl
    | succ fuel => exact runLevel_chars_eq dryRun fs (runToks dryRun fs fuel) toks st hfree

/-- Witness for C9: re-introducing `tom` at a state that already holds an
earlier definition, plus the registry readback and a function-free
continuation. -/
theorem C9_witness :
    (runToks false (exFs "x") 1
        [(exCtx 2, .function "introduce" (some "tom; Tomas"))]
        ⟨[], [("tom", ⟨"tom", "Tom", exCtx 1, none⟩)], none, [], [], [], none, none⟩ =
      runToks false (exFs "x") 1 []
        {(⟨[], [("tom", ⟨"tom", "Tom", exCtx 1, none⟩)], none, [], [], [],
            none, none⟩ : TState) with
          violations := ([] : List LintingViolation) ++
            [⟨dupCharDesc "tom" ⟨"tom", "Tom", exCtx 1, none⟩, exCtx 2, .warning⟩],
          characters := dictSet [("tom", ⟨"tom", "Tom", exCtx 1, none⟩)] "tom"
            ⟨"tom", "Tomas", exCtx 2, none⟩}) ∧
    (dictGet (introduceStep
        ⟨[], [("tom", ⟨"tom", "Tom", exCtx 1, none⟩)], none, [], [], [], none, none⟩
        "tom" "Tomas" none (exCtx 2)).characters "tom" =
      some ⟨"tom", "Tomas", exCtx 2, none⟩) ∧
    ((runToks false (exFs "x") 1 [(exCtx 3, .play_name "T")]
        ⟨[], [("tom", ⟨"tom", "Tomas", exCtx 2, none⟩)], none, [], [], [],
          none, none⟩).1).characters =
      [("tom", ⟨"tom", "Tomas", exCtx 2, none⟩)] :=
  ⟨C9_reintroduce_last_wins.1 false (exFs "x") 0 (exCtx 2) "tom; Tomas" "tom" "Tomas"
     [] ⟨[], [("tom", ⟨"tom", "Tom", exCtx 1, none⟩)], none, [], [], [], none, none⟩
     ⟨"tom", "Tom", exCtx 1, none⟩ (by decide) rfl,
   C9_reintroduce_last_wins.2.2.1
     ⟨[], [("tom", ⟨"tom", "Tom", exCtx 1, none⟩)], none, [], [], [], none, none⟩
     "tom" "Tomas" none (exCtx 2),
   C9_reintroduce_last_wins.2.2.2 false (exFs "x") 1 [(exCtx 3, .play_name "T")]
     ⟨[], [("tom", ⟨"tom", "Tomas", exCtx 2, none⟩)], none, [], [], [], none, none⟩
     (by decide)⟩

/-! Section: C10: malformed function calls crash in both modes -/

/-- C10: a call line for a *registered* function whose arguments
string is `None` (the name runs into the end of input, so the optional
argument group never matched) crashes on `None.split` in both modes; a
registered handler applied at the wrong arity (`introduce` with other
than two or three arguments, `include` with other than one) raises
`TypeError` in both modes.  In each case the returned state is the
untouched `st` — no violation is recorded — and the rest of the stream is
not processed. -/
theorem C10_bad_function_args_crash :
    ∀ dryRun fs fuel ctx name args post st,
      (name = "introduce" ∨ name = "include") →
      (args = none ∨ ∃ a, args = some a ∧ badArity name a = true) →
      runToks dryRun fs (fuel + 1) ((ctx, .function name args) :: post) st =
        (st, .error (.crash (match args with
          | none => attrErrMsg
          | some _ => typeErrMsg name))) := by
  intro dryRun fs fuel ctx name args post st hname hargs
  show runLevel dryRun fs (runToks dryRun fs fuel)
    ((ctx, .function name args) :: post) st = _
  rcases hname with rfl | rfl
  · simp only [runLevel, reduceIte]
    rcases hargs with rfl | ⟨a, rfl, hbad⟩
    · rfl
    · dsimp only
      rcases hp : parseArgs a with _ | ⟨a1, _ | ⟨a2, _ | ⟨a3, _ | ⟨a4, t⟩⟩⟩⟩
      · rfl
      · rfl
      · rw [badArity, if_pos rfl, hp] at hbad
        simp at hbad
      · rw [badArity, if_pos rfl, hp] at hbad
        simp at hbad
      · rfl
  · simp only [runLevel, reduceIte]
    rcases hargs with rfl | ⟨a, rfl, hbad⟩
    · rfl
    · dsimp only
      rcases hp : parseArgs a with _ | ⟨a1, _ | ⟨a2, t⟩⟩
      · rfl
      · rw [badArity, if_neg (by decide), if_pos rfl, hp] at hbad
        simp at hbad
      · rfl

/-- Witness for C10: `/include` at the very end of the input (arguments
group unmatched, so `None`), and `/introduce tom` (one argument). -/
theorem C10_witness :
    (runToks false (exFs "/include") 1
        [(exCtx 1, .function "include" none)] initState =
      (initState, .error (.crash attrErrMsg))) ∧
    (runToks true (exFs "/introduce tom") 1
        [(exCtx 1, .function "introduce" (some "tom"))] initState =
      (initState, .error (.crash (typeErrMsg "introduce")))) :=
  ⟨C10_bad_function_args_crash false (exFs "/include") 0 (exCtx 1) "include" none []
     initState (.inr rfl) (.inl rfl),
   C10_bad_function_args_crash true (exFs "/introduce tom") 0 (exCtx 1) "introduce"
     (some "tom") [] initState (.inl rfl) (.inr ⟨"tom", rfl, by decide⟩)⟩

end Stagescript
